import Mathlib

/-!
Shallow embedding of the table-tennis-tracker rating core.

The embedded code is:
* the totals aggregator and the three Elo replay functions from
  src/lib/elo.ts (buildMatchGameTotals, calculateEloRatings,
  calculateEloMatchStates, calculateEloDeltasForPlayer);
* the configuration object construction from src/config/eloConfig.ts;
* the best/worst-opponent selection stage of the player statistics
  engine (the reduce over opponent summaries).

Modelling conventions: JavaScript numbers become rationals; JavaScript
Math.pow(10, x) becomes an explicit function parameter pow10; JavaScript
Map objects become functions into Option; the global eloConfig object
becomes an explicit EloConfig argument; JavaScript string comparison
(code-unit lexicographic) becomes jsLt below.
-/

/-- Code-unit lexicographic comparison of character lists, mirroring the
JavaScript relational operator on strings. -/
def strLtb : List Char → List Char → Bool
  | [], [] => false
  | [], _ :: _ => true
  | _ :: _, [] => false
  | c :: cs, d :: ds =>
    if c < d then true
    else if d < c then false
    else strLtb cs ds

/-- JavaScript string comparison a < b (code-unit lexicographic). -/
def jsLt (a b : String) : Bool := strLtb a.data b.data

/-- Match format, from src/lib/data/types.ts. -/
inductive MatchFormat
  | bo1
  | bo3
  | bo5
  | bo7
deriving DecidableEq, Repr

/-- Match type, from src/lib/data/types.ts. -/
inductive MatchType
  | singles
  | doubles
deriving DecidableEq, Repr

/-- One match row (src/lib/data/types.ts MatchRow), restricted to the fields
the rating core reads: identifier, type, format, the two date strings used
for ordering, and the two rosters (nullable, as in the TypeScript type). -/
structure MatchRow where
  id : String
  match_type : MatchType
  match_format : MatchFormat
  match_date : String
  created_at : String
  team_a : Option (List String)
  team_b : Option (List String)
deriving DecidableEq, Repr

/-- One game row (src/lib/data/types.ts GameRow), restricted to the fields
the totals aggregator reads. -/
structure GameRow where
  match_id : String
  side_a_score : ℚ
  side_b_score : ℚ
deriving DecidableEq, Repr

/-- Per-match game totals, from src/lib/elo.ts MatchGameTotals. -/
@[ext]
structure MatchGameTotals where
  sideAWins : ℚ
  sideBWins : ℚ
  sideAPoints : ℚ
  sideBPoints : ℚ
  totalGames : ℚ
deriving DecidableEq, Repr

/-- Per-player replay state, from src/lib/elo.ts EloState. -/
structure EloState where
  rating : ℚ
  matchesPlayed : ℕ
deriving DecidableEq, Repr

/-- The configuration object shape from src/config/eloConfig.ts. -/
structure EloConfig where
  baseline : ℚ
  floor : ℚ
  scale : ℚ
  kFactor : ℚ
  doublesMultiplier : ℚ
  formatWeights : MatchFormat → ℚ

/-- The environment entries read by src/config/eloConfig.ts, modelled as
already-parsed numbers: a `none` stands for an absent, blank or non-finite
environment value (all of which readEnvNumber maps to its fallback). -/
structure EloEnvSettings where
  baseline : Option ℚ
  floor : Option ℚ
  scale : Option ℚ
  kFactor : Option ℚ
  doublesMultiplier : Option ℚ
  wBo1 : Option ℚ
  wBo3 : Option ℚ
  wBo5 : Option ℚ
  wBo7 : Option ℚ

/-- readEnvNumber from src/config/eloConfig.ts: use the environment value
when present (and finite), otherwise the fallback. -/
def readEnvNumber (raw : Option ℚ) (fallback : ℚ) : ℚ := raw.getD fallback

/-- Construction of the eloConfig object from src/config/eloConfig.ts, with
the fallbacks that appear there.  The construction is total: no check of any
kind is performed on the resulting configuration. -/
def buildEloConfig (env : EloEnvSettings) : EloConfig where
  baseline := readEnvNumber env.baseline 1000
  floor := readEnvNumber env.floor 100
  scale := readEnvNumber env.scale 400
  kFactor := readEnvNumber env.kFactor 24
  doublesMultiplier := readEnvNumber env.doublesMultiplier (4 / 5)
  formatWeights := fun fmt =>
    match fmt with
    | MatchFormat.bo1 => readEnvNumber env.wBo1 (1 / 2)
    | MatchFormat.bo3 => readEnvNumber env.wBo3 1
    | MatchFormat.bo5 => readEnvNumber env.wBo5 (3 / 2)
    | MatchFormat.bo7 => readEnvNumber env.wBo7 2

/-- The configuration produced when no environment override is set. -/
def defaultEloConfig : EloConfig :=
  buildEloConfig ⟨none, none, none, none, none, none, none, none, none⟩

/-- compareMatches from src/lib/elo.ts lines 17-28: order by match_date, then
created_at, then id, each compared as JavaScript strings. -/
def compareMatches (a b : MatchRow) : Int :=
  if a.match_date ≠ b.match_date then
    if jsLt a.match_date b.match_date then -1 else 1
  else if a.created_at ≠ b.created_at then
    if jsLt a.created_at b.created_at then -1 else 1
  else if a.id = b.id then 0
  else if jsLt a.id b.id then -1 else 1

/-- The order in which Array.prototype.sort with comparator compareMatches
arranges two matches. -/
def matchLe (a b : MatchRow) : Prop := compareMatches a b ≤ 0

instance : DecidableRel matchLe :=
  fun a b => inferInstanceAs (Decidable (compareMatches a b ≤ 0))

/-- The spread-and-sort [...matches].sort(compareMatches): a stable sort of
a copy of the match array by the canonical comparator. -/
def sortMatches (l : List MatchRow) : List MatchRow := List.insertionSort matchLe l

/-- Update of a JavaScript Map (modelled as a function into Option) at one key. -/
def upd {β : Type} (m : String → Option β) (k : String) (v : β) : String → Option β :=
  fun q => if q = k then some v else m q

/-- The all-zero totals record a match starts from (src/lib/elo.ts lines 57-64). -/
def zeroTotals : MatchGameTotals := ⟨0, 0, 0, 0, 0⟩

/-- Folding one game into a totals record (src/lib/elo.ts lines 66-75): points
always accumulate; a strictly higher score is a game win for that side and
counts one total game; an equal score counts nothing beyond the points. -/
def addGame (t : MatchGameTotals) (g : GameRow) : MatchGameTotals :=
  let c := { t with
    sideAPoints := t.sideAPoints + g.side_a_score,
    sideBPoints := t.sideBPoints + g.side_b_score }
  if g.side_b_score < g.side_a_score then
    { c with sideAWins := c.sideAWins + 1, totalGames := c.totalGames + 1 }
  else if g.side_a_score < g.side_b_score then
    { c with sideBWins := c.sideBWins + 1, totalGames := c.totalGames + 1 }
  else c

/-- The body of the games.forEach loop of buildMatchGameTotals: games whose
match is not in the match set are ignored; otherwise the match's totals entry
(created at zero on first reference) absorbs the game. -/
def gameStep (matchIds : List String) (tm : String → Option MatchGameTotals)
    (g : GameRow) : String → Option MatchGameTotals :=
  if g.match_id ∈ matchIds then
    upd tm g.match_id (addGame ((tm g.match_id).getD zeroTotals) g)
  else tm

/-- buildMatchGameTotals from src/lib/elo.ts lines 44-81 (the matches
parameter is named matchRows here because matches is reserved in Lean). -/
def buildMatchGameTotals (matchRows : List MatchRow) (games : List GameRow) :
    String → Option MatchGameTotals :=
  games.foldl (gameStep (matchRows.map MatchRow.id)) (fun _ => none)

/-- resolveFormatWeight from src/lib/elo.ts lines 30-33: a positive (finite)
configured weight is used, anything else falls back to 1.  Rationals are
always finite, so the Number.isFinite guard is always satisfied here. -/
def resolveFormatWeight (cfg : EloConfig) (fmt : MatchFormat) : ℚ :=
  let w := cfg.formatWeights fmt
  if 0 < w then w else 1

/-- resolveScale from src/lib/elo.ts line 35: a non-positive configured scale
falls back to 400; the check runs on every call, inside the replay. -/
def resolveScale (cfg : EloConfig) : ℚ :=
  if 0 < cfg.scale then cfg.scale else 400

/-- resolveK from src/lib/elo.ts line 37: a non-positive configured K falls
back to 24; the check runs on every call, inside the replay. -/
def resolveK (cfg : EloConfig) : ℚ :=
  if 0 < cfg.kFactor then cfg.kFactor else 24

/-- expectedScore from src/lib/elo.ts lines 39-42, with Math.pow(10, x)
passed in as the function pow10. -/
def expectedScore (pow10 : ℚ → ℚ) (cfg : EloConfig) (rating opponentRating : ℚ) : ℚ :=
  1 / (1 + pow10 ((opponentRating - rating) / resolveScale cfg))

/-- The K applied to each side of a match (src/lib/elo.ts lines 139-143):
resolved fixed K times the format weight times the doubles multiplier for a
doubles match.  It reads nothing from any player state. -/
def teamKFor (cfg : EloConfig) (mr : MatchRow) : ℚ :=
  resolveK cfg * resolveFormatWeight cfg mr.match_format *
    (if mr.match_type = MatchType.doubles then cfg.doublesMultiplier else 1)

/-- ensureState from src/lib/elo.ts lines 90-101: return the map unchanged if
the player already has a state, otherwise insert a fresh state seeded at the
configured baseline with zero matches played. -/
def ensureState (cfg : EloConfig) (s : String → Option EloState) (p : String) :
    String → Option EloState :=
  if (s p).isSome then s else upd s p ⟨cfg.baseline, 0⟩

/-- Read a player's state after it has been ensured (the default is never
reached on the paths the replay uses). -/
def getState (cfg : EloConfig) (s : String → Option EloState) (p : String) : EloState :=
  (s p).getD ⟨cfg.baseline, 0⟩

/-- The simple arithmetic mean of a team's member ratings
(src/lib/elo.ts lines 130-133). -/
def teamMeanRating (cfg : EloConfig) (s : String → Option EloState)
    (team : List String) : ℚ :=
  ((team.map fun p => (getState cfg s p).rating).sum) / (team.length : ℚ)

/-- The two per-side rating deltas of one decided match
(src/lib/elo.ts lines 130-146): actual score is the fraction of games won,
expected score is logistic, delta is K times their difference. -/
def matchDeltas (pow10 : ℚ → ℚ) (cfg : EloConfig) (s : String → Option EloState)
    (mr : MatchRow) (t : MatchGameTotals) : ℚ × ℚ :=
  let teamA := mr.team_a.getD []
  let teamB := mr.team_b.getD []
  let teamARating := teamMeanRating cfg s teamA
  let teamBRating := teamMeanRating cfg s teamB
  let scoreA := t.sideAWins / t.totalGames
  let scoreB := t.sideBWins / t.totalGames
  let expectedA := expectedScore pow10 cfg teamARating teamBRating
  let expectedB := 1 - expectedA
  (teamKFor cfg mr * (scoreA - expectedA), teamKFor cfg mr * (scoreB - expectedB))

/-- One member update of calculateEloRatings (src/lib/elo.ts lines 148-155):
clamp the new rating at the configured floor and count the match. -/
def applyDelta (cfg : EloConfig) (delta : ℚ) (s : String → Option EloState)
    (p : String) : String → Option EloState :=
  let st := getState cfg s p
  upd s p ⟨max cfg.floor (st.rating + delta), st.matchesPlayed + 1⟩

/-- The body of the orderedMatches.forEach loop of calculateEloRatings
(src/lib/elo.ts lines 109-156): skip a match with no totals entry, with no
decisive game, or with an empty roster; otherwise ensure every participant a
state, compute the two side deltas and apply them to every member. -/
def ratingsStep (pow10 : ℚ → ℚ) (cfg : EloConfig)
    (totals : String → Option MatchGameTotals)
    (s : String → Option EloState) (mr : MatchRow) : String → Option EloState :=
  match totals mr.id with
  | none => s
  | some t =>
    if t.totalGames ≤ 0 then s
    else
      let teamA := mr.team_a.getD []
      let teamB := mr.team_b.getD []
      if teamA = [] ∨ teamB = [] then s
      else
        let s1 := (teamA ++ teamB).foldl (ensureState cfg) s
        let d := matchDeltas pow10 cfg s1 mr t
        let s2 := teamA.foldl (applyDelta cfg d.1) s1
        teamB.foldl (applyDelta cfg d.2) s2

/-- The state map holding every seeded player (src/lib/elo.ts lines 103-105). -/
def seedStates (cfg : EloConfig) (seed : List String) : String → Option EloState :=
  seed.foldl (ensureState cfg) (fun _ => none)

/-- The state map of calculateEloRatings after replaying a given list of
matches over the seeded states. -/
def eloStatesAfter (pow10 : ℚ → ℚ) (cfg : EloConfig)
    (totals : String → Option MatchGameTotals) (seed : List String)
    (l : List MatchRow) : String → Option EloState :=
  l.foldl (ratingsStep pow10 cfg totals) (seedStates cfg seed)

/-- calculateEloRatings from src/lib/elo.ts lines 83-164: replay the matches
in canonical order and expose each player's final rating. -/
def calculateEloRatings (pow10 : ℚ → ℚ) (cfg : EloConfig)
    (matchRows : List MatchRow) (totals : String → Option MatchGameTotals)
    (seed : List String) : String → Option ℚ :=
  fun p => ((eloStatesAfter pow10 cfg totals seed (sortMatches matchRows)) p).map EloState.rating

/-- One per-match trace entry, from src/lib/elo.ts EloMatchState.  The three
Record fields are modelled as functions into Option. -/
structure EloMatchState where
  matchId : String
  teamAIds : List String
  teamBIds : List String
  preRatings : String → Option ℚ
  preMatches : String → Option ℕ
  postRatings : String → Option ℚ

/-- One member update of calculateEloMatchStates (src/lib/elo.ts lines
254-265): apply the clamped delta, count the match, and record the post
rating. -/
def applyDeltaPost (cfg : EloConfig) (delta : ℚ)
    (acc : (String → Option EloState) × (String → Option ℚ)) (p : String) :
    (String → Option EloState) × (String → Option ℚ) :=
  let st := getState cfg acc.1 p
  let next := max cfg.floor (st.rating + delta)
  (upd acc.1 p ⟨next, st.matchesPlayed + 1⟩, upd acc.2 p next)

/-- The body of the orderedMatches.forEach loop of calculateEloMatchStates
(src/lib/elo.ts lines 202-275): same guards and arithmetic as
calculateEloRatings, additionally recording pre ratings, pre matches-played
counts and post ratings, and appending one trace entry per decided match. -/
def statesStep (pow10 : ℚ → ℚ) (cfg : EloConfig)
    (totals : String → Option MatchGameTotals)
    (acc : (String → Option EloState) × List EloMatchState) (mr : MatchRow) :
    (String → Option EloState) × List EloMatchState :=
  match totals mr.id with
  | none => acc
  | some t =>
    if t.totalGames ≤ 0 then acc
    else
      let teamA := mr.team_a.getD []
      let teamB := mr.team_b.getD []
      if teamA = [] ∨ teamB = [] then acc
      else
        let s1 := (teamA ++ teamB).foldl (ensureState cfg) acc.1
        let preR : String → Option ℚ :=
          (teamA ++ teamB).foldl (fun f p => upd f p (getState cfg s1 p).rating) (fun _ => none)
        let preM : String → Option ℕ :=
          (teamA ++ teamB).foldl (fun f p => upd f p (getState cfg s1 p).matchesPlayed) (fun _ => none)
        let d := matchDeltas pow10 cfg s1 mr t
        let stepA := teamA.foldl (applyDeltaPost cfg d.1) (s1, fun _ => none)
        let stepB := teamB.foldl (applyDeltaPost cfg d.2) stepA
        (stepB.1, acc.2 ++ [⟨mr.id, teamA, teamB, preR, preM, stepB.2⟩])

/-- The state map and trace of calculateEloMatchStates after replaying a
given list of matches over the seeded states. -/
def eloTraceAfter (pow10 : ℚ → ℚ) (cfg : EloConfig)
    (totals : String → Option MatchGameTotals) (seed : List String)
    (l : List MatchRow) : (String → Option EloState) × List EloMatchState :=
  l.foldl (statesStep pow10 cfg totals) (seedStates cfg seed, [])

/-- calculateEloMatchStates from src/lib/elo.ts lines 175-278. -/
def calculateEloMatchStates (pow10 : ℚ → ℚ) (cfg : EloConfig)
    (matchRows : List MatchRow) (totals : String → Option MatchGameTotals)
    (seed : List String) : List EloMatchState :=
  (eloTraceAfter pow10 cfg totals seed (sortMatches matchRows)).2

/-- One member update of calculateEloDeltasForPlayer (src/lib/elo.ts lines
345-361): apply the clamped delta and, for the target player, record the
realised delta under the match id. -/
def applyDeltaTrack (cfg : EloConfig) (playerId : String) (mid : String) (delta : ℚ)
    (acc : (String → Option EloState) × (String → Option ℚ)) (p : String) :
    (String → Option EloState) × (String → Option ℚ) :=
  let st := getState cfg acc.1 p
  let next := max cfg.floor (st.rating + delta)
  (upd acc.1 p ⟨next, st.matchesPlayed + 1⟩,
   if p = playerId then upd acc.2 mid (next - st.rating) else acc.2)

/-- The body of the orderedMatches.forEach loop of calculateEloDeltasForPlayer
(src/lib/elo.ts lines 312-362). -/
def deltasStep (pow10 : ℚ → ℚ) (cfg : EloConfig)
    (totals : String → Option MatchGameTotals) (playerId : String)
    (acc : (String → Option EloState) × (String → Option ℚ)) (mr : MatchRow) :
    (String → Option EloState) × (String → Option ℚ) :=
  match totals mr.id with
  | none => acc
  | some t =>
    if t.totalGames ≤ 0 then acc
    else
      let teamA := mr.team_a.getD []
      let teamB := mr.team_b.getD []
      if teamA = [] ∨ teamB = [] then acc
      else
        let s1 := (teamA ++ teamB).foldl (ensureState cfg) acc.1
        let d := matchDeltas pow10 cfg s1 mr t
        let stepA := teamA.foldl (applyDeltaTrack cfg playerId mr.id d.1) (s1, acc.2)
        teamB.foldl (applyDeltaTrack cfg playerId mr.id d.2) stepA

/-- The state map and delta map of calculateEloDeltasForPlayer after
replaying a given list of matches; the target player is ensured a state
up front when its identifier is non-empty (truthy). -/
def eloDeltasAfter (pow10 : ℚ → ℚ) (cfg : EloConfig)
    (totals : String → Option MatchGameTotals) (playerId : String)
    (seed : List String) (l : List MatchRow) :
    (String → Option EloState) × (String → Option ℚ) :=
  let s0 := if playerId = "" then seedStates cfg seed
            else ensureState cfg (seedStates cfg seed) playerId
  l.foldl (deltasStep pow10 cfg totals playerId) (s0, fun _ => none)

/-- calculateEloDeltasForPlayer from src/lib/elo.ts lines 280-365. -/
def calculateEloDeltasForPlayer (pow10 : ℚ → ℚ) (cfg : EloConfig)
    (matchRows : List MatchRow) (totals : String → Option MatchGameTotals)
    (playerId : String) (seed : List String) : String → Option ℚ :=
  (eloDeltasAfter pow10 cfg totals playerId seed (sortMatches matchRows)).2

/-- One opponent summary row of the player statistics engine (the
OpponentSummary shape the best/worst-opponent reduce consumes): win
percentage against that opponent, match count (the source field matches,
renamed because matches is reserved in Lean), and the opponent's display
label and identifier. -/
structure OpponentSummary where
  id : String
  label : String
  memberIds : List String
  wins : ℚ
  losses : ℚ
  matchCount : ℕ
  winPct : ℚ
deriving DecidableEq, Repr

/-- The minimum number of meetings an opponent needs to count as a matchup
(MIN_MATCHES_FOR_MATCHUP in the statistics page). -/
def MIN_MATCHES_FOR_MATCHUP : ℕ := 3

/-- The eligible opponents: those met at least MIN_MATCHES_FOR_MATCHUP
times. -/
def matchupOpponents (l : List OpponentSummary) : List OpponentSummary :=
  l.filter fun s => MIN_MATCHES_FOR_MATCHUP ≤ s.matchCount

/-- The reduce body selecting the best opponent: replace the accumulator when
the candidate has a strictly higher win percentage, or an equal win
percentage and strictly more matches, or equal both and a smaller display
label. -/
def pickBestStep : Option OpponentSummary → OpponentSummary → Option OpponentSummary
  | none, current => some current
  | some b, current =>
    if b.winPct < current.winPct then some current
    else if current.winPct = b.winPct ∧ b.matchCount < current.matchCount then some current
    else if current.winPct = b.winPct ∧ current.matchCount = b.matchCount ∧
        jsLt current.label b.label then some current
    else some b

/-- The bestOpponent reduce of the statistics engine, over the eligible
opponents. -/
def bestOpponentOf (l : List OpponentSummary) : Option OpponentSummary :=
  (matchupOpponents l).foldl pickBestStep none

/-- The pool the worst-opponent reduce runs over: the eligible opponents
minus the already-chosen best opponent. -/
def worstOpponentPool (l : List OpponentSummary) : List OpponentSummary :=
  match bestOpponentOf l with
  | some b => (matchupOpponents l).filter fun s => s.id ≠ b.id
  | none => matchupOpponents l

/-- The reduce body selecting the worst opponent: replace the accumulator
when the candidate has a strictly lower win percentage, or an equal win
percentage and strictly more matches, or equal both and a smaller display
label. -/
def pickWorstStep : Option OpponentSummary → OpponentSummary → Option OpponentSummary
  | none, current => some current
  | some w, current =>
    if current.winPct < w.winPct then some current
    else if current.winPct = w.winPct ∧ w.matchCount < current.matchCount then some current
    else if current.winPct = w.winPct ∧ current.matchCount = w.matchCount ∧
        jsLt current.label w.label then some current
    else some w

/-- The worstOpponent reduce of the statistics engine. -/
def worstOpponentOf (l : List OpponentSummary) : Option OpponentSummary :=
  (worstOpponentPool l).foldl pickWorstStep none

/-- Modelled from the spec: the best-opponent selection as the spec words it,
with ties broken by higher match count and then by identifier (rather than by
display label).  Kept only to compare against bestOpponentOf. -/
def bestOpponentSpecOrder (l : List OpponentSummary) : Option OpponentSummary :=
  (matchupOpponents l).foldl
    (fun best current =>
      match best with
      | none => some current
      | some b =>
        if b.winPct < current.winPct then some current
        else if current.winPct = b.winPct ∧ b.matchCount < current.matchCount then some current
        else if current.winPct = b.winPct ∧ current.matchCount = b.matchCount ∧
            jsLt current.id b.id then some current
        else some b)
    none

/-- A store of JavaScript arrays of match rows: a heap of array contents
indexed by reference, plus the next fresh reference. -/
structure ArrStore where
  heap : ℕ → List MatchRow
  next : ℕ

/-- The spread [...arr]: allocate a fresh array holding a copy of the
referenced array's contents. -/
def allocCopy (s : ArrStore) (r : ℕ) : ℕ × ArrStore :=
  (s.next, ⟨fun i => if i = s.next then s.heap r else s.heap i, s.next + 1⟩)

/-- Array.prototype.sort with comparator compareMatches, mutating the
referenced array in place. -/
def sortAt (s : ArrStore) (r : ℕ) : ArrStore :=
  ⟨fun i => if i = r then sortMatches (s.heap i) else s.heap i, s.next⟩

/-- calculateEloRatings at the array-store level, making the mutation on
line 107 of src/lib/elo.ts explicit: the spread allocates a fresh array and
sort mutates that fresh array, never the caller's. -/
def calculateEloRatingsStore (pow10 : ℚ → ℚ) (cfg : EloConfig) (s : ArrStore)
    (matchesRef : ℕ) (totals : String → Option MatchGameTotals)
    (seed : List String) : (String → Option ℚ) × ArrStore :=
  let a := allocCopy s matchesRef
  let s2 := sortAt a.2 a.1
  (fun p => ((eloStatesAfter pow10 cfg totals seed (s2.heap a.1)) p).map EloState.rating, s2)

/-- calculateEloMatchStates at the array-store level (line 200 of
src/lib/elo.ts). -/
def calculateEloMatchStatesStore (pow10 : ℚ → ℚ) (cfg : EloConfig) (s : ArrStore)
    (matchesRef : ℕ) (totals : String → Option MatchGameTotals)
    (seed : List String) : List EloMatchState × ArrStore :=
  let a := allocCopy s matchesRef
  let s2 := sortAt a.2 a.1
  ((eloTraceAfter pow10 cfg totals seed (s2.heap a.1)).2, s2)

/-- calculateEloDeltasForPlayer at the array-store level (line 310 of
src/lib/elo.ts). -/
def calculateEloDeltasForPlayerStore (pow10 : ℚ → ℚ) (cfg : EloConfig) (s : ArrStore)
    (matchesRef : ℕ) (totals : String → Option MatchGameTotals)
    (playerId : String) (seed : List String) : (String → Option ℚ) × ArrStore :=
  let a := allocCopy s matchesRef
  let s2 := sortAt a.2 a.1
  ((eloDeltasAfter pow10 cfg totals playerId seed (s2.heap a.1)).2, s2)

/-- Strict precedence in the canonical match order: lexicographic on
(match_date, created_at, id) under JavaScript string comparison. -/
def keyLt (a b : MatchRow) : Prop :=
  jsLt a.match_date b.match_date = true ∨
    (a.match_date = b.match_date ∧
      (jsLt a.created_at b.created_at = true ∨
        (a.created_at = b.created_at ∧ jsLt a.id b.id = true)))

/-- Equality of the three ordering fields. -/
def keyEq (a b : MatchRow) : Prop :=
  a.match_date = b.match_date ∧ a.created_at = b.created_at ∧ a.id = b.id

/-- b is at least as good a best-opponent candidate as o: higher win
percentage, ties broken by higher match count, then by smaller display
label. -/
def bestGe (b o : OpponentSummary) : Prop :=
  o.winPct ≤ b.winPct ∧
    (o.winPct = b.winPct → o.matchCount ≤ b.matchCount ∧
      (o.matchCount = b.matchCount → jsLt o.label b.label = false))

/-- w is at least as good a worst-opponent candidate as o: lower win
percentage, ties broken by higher match count, then by smaller display
label. -/
def worstGe (w o : OpponentSummary) : Prop :=
  w.winPct ≤ o.winPct ∧
    (w.winPct = o.winPct → o.matchCount ≤ w.matchCount ∧
      (o.matchCount = w.matchCount → jsLt o.label w.label = false))

/-- Every state present in the map has a rating satisfying Q. -/
def StateRatingInv (Q : ℚ → Prop) (s : String → Option EloState) : Prop :=
  ∀ p st, s p = some st → Q st.rating

/-- Two optional states hold the same rating (and are present together). -/
def ratingsAgree : Option EloState → Option EloState → Prop
  | none, none => True
  | some a, some b => a.rating = b.rating
  | _, _ => False

/-- Two state maps agree on every player's presence and rating, while their
matches-played counts may differ arbitrarily. -/
def StatesAgree (s₁ s₂ : String → Option EloState) : Prop :=
  ∀ p, ratingsAgree (s₁ p) (s₂ p)

/-- A decided best-of-3 singles match between players A and B, used in the
concrete scenarios below. -/
def exMatch : MatchRow :=
  ⟨"m1", MatchType.singles, MatchFormat.bo3, "2024-01-05", "2024-01-05T10:00:00Z",
    some ["A"], some ["B"]⟩

/-- A second best-of-3 singles match of the same players, one day later. -/
def exMatch2 : MatchRow :=
  ⟨"m2", MatchType.singles, MatchFormat.bo3, "2024-01-06", "2024-01-06T10:00:00Z",
    some ["A"], some ["B"]⟩

/-- Games of a 2-0 best-of-3: A wins 11-5 and 11-7. -/
def exGamesWon : List GameRow := [⟨"m1", 11, 5⟩, ⟨"m1", 11, 7⟩]

/-- Games of an unfinished best-of-3: 11-5 then 5-11, one game win per side,
no third game. -/
def exGamesSplit : List GameRow := [⟨"m1", 11, 5⟩, ⟨"m1", 5, 11⟩]

/-- All-tied games referencing the same match. -/
def exGamesTied : List GameRow := [⟨"m1", 7, 7⟩, ⟨"m1", 10, 10⟩]

/-- The spec scenario configuration: baseline 1000, scale 400, fixed K 32,
format weight 1 for every format, doubles multiplier 1, floor given as a
parameter. -/
def scenarioCfg (f : ℚ) : EloConfig := ⟨1000, f, 400, 32, 1, fun _ => 1⟩

/-- An environment override setting only the rating floor, to 2000 — above
the default baseline of 1000. -/
def inconsistentEnv : EloEnvSettings :=
  ⟨none, some 2000, none, none, none, none, none, none, none⟩

/-- An opponent summary whose identifier orders opposite to its label. -/
def exOppAlice : OpponentSummary := ⟨"pb", "Alice", [], 1, 1, 3, 0⟩

/-- An opponent summary tied with exOppAlice on win percentage and match
count, with the smaller identifier but the larger label. -/
def exOppBob : OpponentSummary := ⟨"pa", "Bob", [], 1, 1, 3, 0⟩

/-! ### Order theory of the canonical match comparator -/

theorem strLtb_cons_iff (x y : Char) (xs ys : List Char) :
    strLtb (x :: xs) (y :: ys) = true ↔ x < y ∨ (x = y ∧ strLtb xs ys = true) := by
  simp only [strLtb]
  split_ifs with h1 h2
  · simp [h1]
  · constructor
    · intro h
      exact absurd h (by simp)
    · rintro (h | ⟨rfl, _⟩)
      · exact absurd h h1
      · exact absurd h2 (lt_irrefl x)
  · have hxy : x = y := le_antisymm (not_lt.mp h2) (not_lt.mp h1)
    subst hxy
    simp [h1]

theorem strLtb_irrefl (l : List Char) : strLtb l l = false := by
  induction l with
  | nil => rfl
  | cons x xs ih =>
    rw [Bool.eq_false_iff]
    intro h
    rcases (strLtb_cons_iff x x xs xs).mp h with h' | ⟨_, h'⟩
    · exact lt_irrefl x h'
    · rw [ih] at h'
      exact Bool.false_ne_true h'

theorem strLtb_trans : ∀ {a b c : List Char},
    strLtb a b = true → strLtb b c = true → strLtb a c = true := by
  intro a
  induction a with
  | nil =>
    intro b c hab hbc
    cases b with
    | nil => exact hbc
    | cons y ys =>
      cases c with
      | nil => simp [strLtb] at hbc
      | cons z zs => rfl
  | cons x xs ih =>
    intro b c hab hbc
    cases b with
    | nil => simp [strLtb] at hab
    | cons y ys =>
      cases c with
      | nil => simp [strLtb] at hbc
      | cons z zs =>
        rcases (strLtb_cons_iff x y xs ys).mp hab with h1 | ⟨he1, h1⟩ <;>
          rcases (strLtb_cons_iff y z ys zs).mp hbc with h2 | ⟨he2, h2⟩
        · exact (strLtb_cons_iff x z xs zs).mpr (Or.inl (lt_trans h1 h2))
        · subst he2
          exact (strLtb_cons_iff x y xs zs).mpr (Or.inl h1)
        · subst he1
          exact (strLtb_cons_iff x z xs zs).mpr (Or.inl h2)
        · subst he1
          subst he2
          exact (strLtb_cons_iff x x xs zs).mpr (Or.inr ⟨rfl, ih h1 h2⟩)

theorem strLtb_eq_of_both_false : ∀ {a b : List Char},
    strLtb a b = false → strLtb b a = false → a = b := by
  intro a
  induction a with
  | nil =>
    intro b hab _
    cases b with
    | nil => rfl
    | cons y ys => simp [strLtb] at hab
  | cons x xs ih =>
    intro b hab hba
    cases b with
    | nil => simp [strLtb] at hba
    | cons y ys =>
      rcases lt_trichotomy x y with h | h | h
      · rw [(strLtb_cons_iff x y xs ys).mpr (Or.inl h)] at hab
        exact absurd hab (by simp)
      · subst h
        have h1 : strLtb xs ys = false := by
          rcases Bool.eq_false_or_eq_true (strLtb xs ys) with h' | h'
          · rw [(strLtb_cons_iff x x xs ys).mpr (Or.inr ⟨rfl, h'⟩)] at hab
            exact absurd hab (by simp)
          · exact h'
        have h2 : strLtb ys xs = false := by
          rcases Bool.eq_false_or_eq_true (strLtb ys xs) with h' | h'
          · rw [(strLtb_cons_iff x x ys xs).mpr (Or.inr ⟨rfl, h'⟩)] at hba
            exact absurd hba (by simp)
          · exact h'
        rw [ih h1 h2]
      · rw [(strLtb_cons_iff y x ys xs).mpr (Or.inl h)] at hba
        exact absurd hba (by simp)

theorem jsLt_irrefl (a : String) : jsLt a a = false := strLtb_irrefl a.data

theorem jsLt_trans {a b c : String} (h1 : jsLt a b = true) (h2 : jsLt b c = true) :
    jsLt a c = true := strLtb_trans h1 h2

theorem jsLt_asymm {a b : String} (h : jsLt a b = true) : jsLt b a = false := by
  rcases Bool.eq_false_or_eq_true (jsLt b a) with h' | h'
  · have := jsLt_trans h h'
    rw [jsLt_irrefl] at this
    exact absurd this (by simp)
  · exact h'

theorem jsLt_eq_of_both_false {a b : String} (h1 : jsLt a b = false)
    (h2 : jsLt b a = false) : a = b := by
  cases a with
  | mk da =>
    cases b with
    | mk db =>
      have : da = db := strLtb_eq_of_both_false h1 h2
      rw [this]

theorem jsLt_true_of_ne_of_false {a b : String} (hne : a ≠ b) (h : jsLt a b = false) :
    jsLt b a = true := by
  rcases Bool.eq_false_or_eq_true (jsLt b a) with h' | h'
  · exact h'
  · exact absurd (jsLt_eq_of_both_false h h') hne



theorem compareMatches_neg_iff (a b : MatchRow) :
    compareMatches a b = -1 ↔ keyLt a b := by
  unfold compareMatches keyLt
  by_cases h1 : a.match_date = b.match_date
  · rw [h1]
    simp only [ne_eq, not_true_eq_false, if_false, jsLt_irrefl, Bool.false_eq_true,
      false_or, true_and, if_neg (by simp : ¬False)]
    by_cases h2 : a.created_at = b.created_at
    · rw [h2]
      simp only [ne_eq, not_true_eq_false, if_false, jsLt_irrefl, Bool.false_eq_true,
        false_or, true_and, if_neg (by simp : ¬False)]
      by_cases h3 : a.id = b.id
      · simp [h3, jsLt_irrefl]
      · rw [if_neg h3]
        by_cases hj : jsLt a.id b.id = true
        · simp [hj]
        · simp [hj, Bool.eq_false_iff.mpr hj]
    · simp only [h2, ne_eq, not_false_eq_true, if_true, if_neg]
      by_cases hj : jsLt a.created_at b.created_at = true
      · simp [hj, h2]
      · simp [hj, h2, Bool.eq_false_iff.mpr hj]
  · simp only [h1, ne_eq, not_false_eq_true, if_true]
    by_cases hj : jsLt a.match_date b.match_date = true
    · simp [hj, h1]
    · simp [hj, h1, Bool.eq_false_iff.mpr hj]

theorem compareMatches_zero_iff (a b : MatchRow) :
    compareMatches a b = 0 ↔ keyEq a b := by
  unfold compareMatches keyEq
  by_cases h1 : a.match_date = b.match_date
  · simp only [h1, ne_eq, not_true_eq_false, if_false, true_and,
      if_neg (by simp : ¬False)]
    by_cases h2 : a.created_at = b.created_at
    · simp only [h2, ne_eq, not_true_eq_false, if_false, true_and,
        if_neg (by simp : ¬False)]
      by_cases h3 : a.id = b.id
      · simp [h3]
      · rw [if_neg h3]
        split_ifs <;> simp [h3]
    · simp only [h2, ne_eq, not_false_eq_true, if_true, false_and, and_false, iff_false]
      split_ifs <;> simp [h2]
  · simp only [h1, ne_eq, not_false_eq_true, if_true, false_and, iff_false]
    split_ifs <;> simp [h1]

theorem compareMatches_pos_iff (a b : MatchRow) :
    compareMatches a b = 1 ↔ keyLt b a := by
  unfold compareMatches keyLt
  by_cases h1 : a.match_date = b.match_date
  · rw [h1]
    simp only [ne_eq, not_true_eq_false, if_false, jsLt_irrefl, Bool.false_eq_true,
      false_or, true_and, if_neg (by simp : ¬False)]
    by_cases h2 : a.created_at = b.created_at
    · rw [h2]
      simp only [ne_eq, not_true_eq_false, if_false, jsLt_irrefl, Bool.false_eq_true,
        false_or, true_and, if_neg (by simp : ¬False)]
      by_cases h3 : a.id = b.id
      · simp [h3, jsLt_irrefl]
      · rw [if_neg h3]
        by_cases hj : jsLt a.id b.id = true
        · simp [hj, jsLt_asymm hj]
        · simp [hj, jsLt_true_of_ne_of_false h3 (Bool.eq_false_iff.mpr hj)]
    · simp only [h2, ne_eq, not_false_eq_true, if_true]
      by_cases hj : jsLt a.created_at b.created_at = true
      · rw [if_pos hj]
        constructor
        · intro h
          exact absurd h (by decide)
        · rintro (h | ⟨h, _⟩)
          · rw [jsLt_asymm hj] at h
            exact absurd h (by simp)
          · exact absurd h.symm h2
      · rw [if_neg hj]
        constructor
        · intro _
          exact Or.inl (jsLt_true_of_ne_of_false h2 (Bool.eq_false_iff.mpr hj))
        · intro _
          rfl
  · simp only [h1, ne_eq, not_false_eq_true, if_true]
    by_cases hj : jsLt a.match_date b.match_date = true
    · rw [if_pos hj]
      constructor
      · intro h
        exact absurd h (by decide)
      · rintro (h | ⟨h, _⟩)
        · rw [jsLt_asymm hj] at h
          exact absurd h (by simp)
        · exact absurd h.symm h1
    · rw [if_neg hj]
      constructor
      · intro _
        exact Or.inl (jsLt_true_of_ne_of_false h1 (Bool.eq_false_iff.mpr hj))
      · intro _
        rfl

theorem compareMatches_cases (a b : MatchRow) :
    compareMatches a b = -1 ∨ compareMatches a b = 0 ∨ compareMatches a b = 1 := by
  unfold compareMatches
  split_ifs <;> simp

theorem keyLt_irrefl (a : MatchRow) : ¬keyLt a a := by
  unfold keyLt
  simp [jsLt_irrefl]

theorem keyEq_of_keyLt_false {a b : MatchRow} (h1 : ¬keyLt a b) (h2 : ¬keyLt b a) :
    keyEq a b := by
  unfold keyLt at h1 h2
  push_neg at h1 h2
  by_cases hd : a.match_date = b.match_date
  · by_cases hc : a.created_at = b.created_at
    · refine ⟨hd, hc, ?_⟩
      have j1 := (h1.2 hd).2 hc
      have j2 := (h2.2 hd.symm).2 hc.symm
      exact jsLt_eq_of_both_false (Bool.eq_false_iff.mpr j1) (Bool.eq_false_iff.mpr j2)
    · have j1 := (h1.2 hd).1
      have j2 := (h2.2 hd.symm).1
      exact absurd (jsLt_eq_of_both_false (Bool.eq_false_iff.mpr j1)
        (Bool.eq_false_iff.mpr j2)) hc
  · exact absurd (jsLt_eq_of_both_false (Bool.eq_false_iff.mpr h1.1)
      (Bool.eq_false_iff.mpr h2.1)) hd

theorem keyLt_trans {a b c : MatchRow} (h1 : keyLt a b) (h2 : keyLt b c) : keyLt a c := by
  unfold keyLt at h1 h2 ⊢
  rcases h1 with h1 | ⟨hd1, h1⟩
  · rcases h2 with h2 | ⟨hd2, _⟩
    · exact Or.inl (jsLt_trans h1 h2)
    · exact Or.inl (hd2 ▸ h1)
  · rcases h2 with h2 | ⟨hd2, h2⟩
    · exact Or.inl (hd1 ▸ h2)
    · refine Or.inr ⟨hd1.trans hd2, ?_⟩
      rcases h1 with h1 | ⟨hc1, h1⟩
      · rcases h2 with h2 | ⟨hc2, _⟩
        · exact Or.inl (jsLt_trans h1 h2)
        · exact Or.inl (hc2 ▸ h1)
      · rcases h2 with h2 | ⟨hc2, h2⟩
        · exact Or.inl (hc1 ▸ h2)
        · exact Or.inr ⟨hc1.trans hc2, jsLt_trans h1 h2⟩

theorem keyLt_congr_left {a b c : MatchRow} (h : keyEq a b) :
    keyLt a c ↔ keyLt b c := by
  rcases h with ⟨h1, h2, h3⟩
  unfold keyLt
  rw [h1, h2, h3]

theorem keyLt_congr_right {a b c : MatchRow} (h : keyEq b c) :
    keyLt a b ↔ keyLt a c := by
  rcases h with ⟨h1, h2, h3⟩
  unfold keyLt
  rw [h1, h2, h3]

theorem matchLe_iff (a b : MatchRow) : matchLe a b ↔ keyLt a b ∨ keyEq a b := by
  unfold matchLe
  constructor
  · intro h
    rcases compareMatches_cases a b with hc | hc | hc
    · exact Or.inl ((compareMatches_neg_iff a b).mp hc)
    · exact Or.inr ((compareMatches_zero_iff a b).mp hc)
    · rw [hc] at h
      exact absurd h (by decide)
  · rintro (h | h)
    · have hc := (compareMatches_neg_iff a b).mpr h
      omega
    · have hc := (compareMatches_zero_iff a b).mpr h
      omega

theorem keyLt_asymm {a b : MatchRow} (h : keyLt a b) : ¬keyLt b a := by
  intro h'
  exact keyLt_irrefl a (keyLt_trans h h')

theorem keyEq_refl (a : MatchRow) : keyEq a a := ⟨rfl, rfl, rfl⟩

theorem keyEq_symm {a b : MatchRow} (h : keyEq a b) : keyEq b a :=
  ⟨h.1.symm, h.2.1.symm, h.2.2.symm⟩

theorem keyEq_trans {a b c : MatchRow} (h1 : keyEq a b) (h2 : keyEq b c) : keyEq a c :=
  ⟨h1.1.trans h2.1, h1.2.1.trans h2.2.1, h1.2.2.trans h2.2.2⟩

instance : IsTrans MatchRow matchLe := by
  constructor
  intro a b c hab hbc
  rcases (matchLe_iff a b).mp hab with h1 | h1 <;>
    rcases (matchLe_iff b c).mp hbc with h2 | h2
  · exact (matchLe_iff a c).mpr (Or.inl (keyLt_trans h1 h2))
  · exact (matchLe_iff a c).mpr (Or.inl ((keyLt_congr_right h2).mp h1))
  · exact (matchLe_iff a c).mpr (Or.inl ((keyLt_congr_left h1).mpr h2))
  · exact (matchLe_iff a c).mpr (Or.inr (keyEq_trans h1 h2))

instance : IsTotal MatchRow matchLe := by
  constructor
  intro a b
  by_cases h1 : keyLt a b
  · exact Or.inl ((matchLe_iff a b).mpr (Or.inl h1))
  · by_cases h2 : keyLt b a
    · exact Or.inr ((matchLe_iff b a).mpr (Or.inl h2))
    · exact Or.inl ((matchLe_iff a b).mpr (Or.inr (keyEq_of_keyLt_false h1 h2)))

theorem matchLe_antisymm_keyEq {a b : MatchRow} (h1 : matchLe a b) (h2 : matchLe b a) :
    keyEq a b := by
  rcases (matchLe_iff a b).mp h1 with h | h
  · rcases (matchLe_iff b a).mp h2 with h' | h'
    · exact absurd h' (keyLt_asymm h)
    · exact absurd ((keyLt_congr_right h').mp h) (keyLt_irrefl a)
  · exact h

theorem matchLe_refl (a : MatchRow) : matchLe a a :=
  (matchLe_iff a a).mpr (Or.inr (keyEq_refl a))

theorem eq_of_perm_of_sorted_ids : ∀ {l₁ l₂ : List MatchRow}, l₁.Perm l₂ →
    List.Sorted matchLe l₁ → List.Sorted matchLe l₂ →
    (∀ a ∈ l₁, ∀ b ∈ l₁, a.id = b.id → a = b) → l₁ = l₂ := by
  intro l₁
  induction l₁ with
  | nil =>
    intro l₂ hp _ _ _
    exact (List.Perm.eq_nil hp.symm).symm
  | cons a t ih =>
    intro l₂ hp hs₁ hs₂ hinj
    cases l₂ with
    | nil =>
      have := List.Perm.eq_nil hp
      simp at this
    | cons b t₂ =>
      have hb : b ∈ a :: t := hp.symm.subset (List.mem_cons_self b t₂)
      have ha : a ∈ b :: t₂ := hp.subset (List.mem_cons_self a t)
      have h1 : matchLe a b := by
        rcases List.mem_cons.mp hb with h | h
        · rw [h]
          exact matchLe_refl a
        · exact List.rel_of_sorted_cons hs₁ b h
      have h2 : matchLe b a := by
        rcases List.mem_cons.mp ha with h | h
        · rw [h]
          exact matchLe_refl b
        · exact List.rel_of_sorted_cons hs₂ a h
      have hkey := matchLe_antisymm_keyEq h1 h2
      have hab : a = b := hinj a (List.mem_cons_self a t) b hb hkey.2.2
      subst hab
      have hp' : t.Perm t₂ := hp.cons_inv
      have ht := ih hp' hs₁.of_cons hs₂.of_cons
        (fun x hx y hy hxy => hinj x (List.mem_cons_of_mem a hx) y
          (List.mem_cons_of_mem a hy) hxy)
      rw [ht]

theorem sortMatches_sorted (l : List MatchRow) : List.Sorted matchLe (sortMatches l) :=
  List.sorted_insertionSort matchLe l

theorem sortMatches_perm (l : List MatchRow) : (sortMatches l).Perm l :=
  List.perm_insertionSort matchLe l

/-- Permuting the input match list does not change the canonically sorted
list, provided match identifiers are pairwise distinct. -/
theorem sortMatches_congr {l₁ l₂ : List MatchRow} (hp : l₁.Perm l₂)
    (hids : (l₁.map MatchRow.id).Nodup) : sortMatches l₁ = sortMatches l₂ := by
  have hinj := List.inj_on_of_nodup_map hids
  apply eq_of_perm_of_sorted_ids
  · exact (sortMatches_perm l₁).trans (hp.trans (sortMatches_perm l₂).symm)
  · exact sortMatches_sorted l₁
  · exact sortMatches_sorted l₂
  · intro x hx y hy hxy
    exact hinj ((sortMatches_perm l₁).subset hx) ((sortMatches_perm l₁).subset hy) hxy

/-! ### The totals aggregator -/

theorem upd_self {β : Type} (m : String → Option β) (k : String) (v : β) :
    upd m k v k = some v := by
  simp [upd]

theorem upd_other {β : Type} (m : String → Option β) (k q : String) (v : β)
    (h : q ≠ k) : upd m k v q = m q := by
  simp [upd, h]

theorem upd_upd_same {β : Type} (m : String → Option β) (k : String) (v w : β) :
    upd (upd m k v) k w = upd m k w := by
  funext q
  by_cases h : q = k <;> simp [upd, h]

theorem addGame_sideAPoints (t : MatchGameTotals) (g : GameRow) :
    (addGame t g).sideAPoints = t.sideAPoints + g.side_a_score := by
  simp only [addGame]
  split_ifs <;> rfl

theorem addGame_sideBPoints (t : MatchGameTotals) (g : GameRow) :
    (addGame t g).sideBPoints = t.sideBPoints + g.side_b_score := by
  simp only [addGame]
  split_ifs <;> rfl

theorem addGame_sideAWins (t : MatchGameTotals) (g : GameRow) :
    (addGame t g).sideAWins =
      t.sideAWins + (if g.side_b_score < g.side_a_score then 1 else 0) := by
  simp only [addGame]
  by_cases h1 : g.side_b_score < g.side_a_score
  · rw [if_pos h1, if_pos h1]
  · rw [if_neg h1, if_neg h1]
    by_cases h2 : g.side_a_score < g.side_b_score
    · rw [if_pos h2]
      simp
    · rw [if_neg h2]
      simp

theorem addGame_sideBWins (t : MatchGameTotals) (g : GameRow) :
    (addGame t g).sideBWins =
      t.sideBWins + (if g.side_a_score < g.side_b_score then 1 else 0) := by
  simp only [addGame]
  by_cases h1 : g.side_b_score < g.side_a_score
  · rw [if_pos h1, if_neg (lt_asymm h1)]
    simp
  · rw [if_neg h1]
    by_cases h2 : g.side_a_score < g.side_b_score
    · rw [if_pos h2, if_pos h2]
    · rw [if_neg h2, if_neg h2]
      simp

theorem addGame_totalGames (t : MatchGameTotals) (g : GameRow) :
    (addGame t g).totalGames = t.totalGames +
      (if g.side_b_score < g.side_a_score ∨ g.side_a_score < g.side_b_score
        then 1 else 0) := by
  simp only [addGame]
  by_cases h1 : g.side_b_score < g.side_a_score
  · rw [if_pos h1, if_pos (Or.inl h1)]
  · rw [if_neg h1]
    by_cases h2 : g.side_a_score < g.side_b_score
    · rw [if_pos h2, if_pos (Or.inr h2)]
    · rw [if_neg h2, if_neg ?_]
      · simp
      · rintro (h | h)
        · exact h1 h
        · exact h2 h

theorem addGame_comm (t : MatchGameTotals) (g₁ g₂ : GameRow) :
    addGame (addGame t g₁) g₂ = addGame (addGame t g₂) g₁ := by
  apply MatchGameTotals.ext <;>
    simp only [addGame_sideAPoints, addGame_sideBPoints, addGame_sideAWins,
      addGame_sideBWins, addGame_totalGames] <;> ring

theorem gameStep_rightComm (ids : List String) (tm : String → Option MatchGameTotals)
    (g₁ g₂ : GameRow) :
    gameStep ids (gameStep ids tm g₁) g₂ = gameStep ids (gameStep ids tm g₂) g₁ := by
  unfold gameStep
  by_cases h₁ : g₁.match_id ∈ ids <;> by_cases h₂ : g₂.match_id ∈ ids
  · simp only [if_pos h₁, if_pos h₂]
    by_cases he : g₁.match_id = g₂.match_id
    · rw [he]
      simp only [upd_self, upd_upd_same, Option.getD_some]
      rw [addGame_comm]
    · funext q
      by_cases hq2 : q = g₂.match_id
      · by_cases hq1 : q = g₁.match_id
        · exact absurd (hq1.symm.trans hq2) he
        · rw [hq2]
          rw [upd_self, upd_other tm g₁.match_id g₂.match_id _ (fun hc => he hc.symm),
            upd_other _ g₁.match_id g₂.match_id _ (fun hc => he hc.symm), upd_self]
      · by_cases hq1 : q = g₁.match_id
        · rw [hq1]
          rw [upd_other _ g₂.match_id g₁.match_id _ he, upd_self,
            upd_other tm g₂.match_id g₁.match_id _ he, upd_self]
        · rw [upd_other _ g₂.match_id q _ hq2, upd_other _ g₁.match_id q _ hq1,
            upd_other _ g₁.match_id q _ hq1, upd_other _ g₂.match_id q _ hq2]
  · simp only [if_pos h₁, if_neg h₂]
  · simp only [if_neg h₁, if_pos h₂]
  · simp only [if_neg h₁, if_neg h₂]

/-- Permuting the match list or the game list does not change the totals map:
the match list only contributes its identifier set, and folding a game in is
right-commutative. -/
theorem buildMatchGameTotals_congr {m₁ m₂ : List MatchRow} {gs₁ gs₂ : List GameRow}
    (hm : m₁.Perm m₂) (hg : gs₁.Perm gs₂) :
    buildMatchGameTotals m₁ gs₁ = buildMatchGameTotals m₂ gs₂ := by
  unfold buildMatchGameTotals
  have hstep : gameStep (m₁.map MatchRow.id) = gameStep (m₂.map MatchRow.id) := by
    funext tm g
    unfold gameStep
    by_cases h : g.match_id ∈ m₁.map MatchRow.id
    · rw [if_pos h, if_pos ((hm.map MatchRow.id).mem_iff.mp h)]
    · rw [if_neg h, if_neg (fun hc => h ((hm.map MatchRow.id).mem_iff.mpr hc))]
  rw [hstep]
  haveI : RightCommutative (gameStep (m₂.map MatchRow.id)) :=
    ⟨fun tm a b => gameStep_rightComm (m₂.map MatchRow.id) tm a b⟩
  exact hg.foldl_eq _

theorem foldl_preserve {α σ : Type _} {P : σ → Prop} {f : σ → α → σ}
    (h : ∀ s a, P s → P (f s a)) : ∀ (l : List α) (s : σ), P s → P (l.foldl f s) := by
  intro l
  induction l with
  | nil =>
    intro s hs
    exact hs
  | cons a t ih =>
    intro s hs
    exact ih _ (h s a hs)

theorem addGame_winsSum (t : MatchGameTotals) (g : GameRow)
    (h : t.sideAWins + t.sideBWins = t.totalGames) :
    (addGame t g).sideAWins + (addGame t g).sideBWins = (addGame t g).totalGames := by
  rw [addGame_sideAWins, addGame_sideBWins, addGame_totalGames]
  by_cases h1 : g.side_b_score < g.side_a_score
  · rw [if_pos h1, if_neg (lt_asymm h1), if_pos (Or.inl h1)]
    linarith
  · rw [if_neg h1]
    by_cases h2 : g.side_a_score < g.side_b_score
    · rw [if_pos h2, if_pos (Or.inr h2)]
      linarith
    · rw [if_neg h2, if_neg ?_]
      · linarith
      · rintro (hx | hx)
        · exact h1 hx
        · exact h2 hx

theorem zeroTotals_winsSum : zeroTotals.sideAWins + zeroTotals.sideBWins =
    zeroTotals.totalGames := by
  simp [zeroTotals]

/-- Every entry the totals aggregator produces has its two game-win counts
summing exactly to its total-games count. -/
theorem buildMatchGameTotals_winsSum (matchRows : List MatchRow)
    (games : List GameRow) (m : String) (t : MatchGameTotals)
    (h : buildMatchGameTotals matchRows games m = some t) :
    t.sideAWins + t.sideBWins = t.totalGames := by
  revert m t h
  have hinv := foldl_preserve
    (P := fun tm : String → Option MatchGameTotals =>
      ∀ m t, tm m = some t → t.sideAWins + t.sideBWins = t.totalGames)
    (f := gameStep (matchRows.map MatchRow.id)) ?_ games (fun _ => none) ?_
  · intro m t h
    exact hinv m t h
  · intro tm g hI m t hmt
    unfold gameStep at hmt
    by_cases hmem : g.match_id ∈ matchRows.map MatchRow.id
    · rw [if_pos hmem] at hmt
      by_cases hq : m = g.match_id
      · rw [hq, upd_self] at hmt
        cases hmt
        cases htm : tm g.match_id with
        | none =>
          simp only [Option.getD_none]
          exact addGame_winsSum _ _ zeroTotals_winsSum
        | some t0 =>
          simp only [Option.getD_some]
          exact addGame_winsSum _ _ (hI _ _ htm)
      · rw [upd_other _ _ _ _ hq] at hmt
        exact hI _ _ hmt
    · rw [if_neg hmem] at hmt
      exact hI _ _ hmt
  · intro m t h
    exact absurd h (by simp)

theorem jsLt_false_iff (x y : String) :
    jsLt x y = false ↔ (jsLt y x = true ∨ x = y) := by
  constructor
  · intro h
    rcases Bool.eq_false_or_eq_true (jsLt y x) with h' | h'
    · exact Or.inl h'
    · exact Or.inr (jsLt_eq_of_both_false h h')
  · rintro (h | h)
    · exact jsLt_asymm h
    · rw [h]
      exact jsLt_irrefl y

theorem jsLt_false_trans {x y z : String} (h1 : jsLt x y = false)
    (h2 : jsLt y z = false) : jsLt x z = false := by
  rcases Bool.eq_false_or_eq_true (jsLt x z) with h | h
  · rcases (jsLt_false_iff x y).mp h1 with h' | h'
    · rw [jsLt_trans h' h] at h2
      exact absurd h2 (by simp)
    · rw [h'] at h
      rw [h] at h2
      exact absurd h2 (by simp)
  · exact h

/-! ### The best/worst-opponent reduces -/



theorem bestGe_refl (a : OpponentSummary) : bestGe a a :=
  ⟨le_refl _, fun _ => ⟨le_refl _, fun _ => jsLt_irrefl a.label⟩⟩

theorem worstGe_refl (a : OpponentSummary) : worstGe a a :=
  ⟨le_refl _, fun _ => ⟨le_refl _, fun _ => jsLt_irrefl a.label⟩⟩

theorem bestGe_trans {a b c : OpponentSummary} (h1 : bestGe a b) (h2 : bestGe b c) :
    bestGe a c := by
  obtain ⟨hw1, ht1⟩ := h1
  obtain ⟨hw2, ht2⟩ := h2
  refine ⟨le_trans hw2 hw1, fun hwe => ?_⟩
  have hcb : c.winPct = b.winPct := le_antisymm hw2 (by linarith)
  have hba : b.winPct = a.winPct := le_antisymm hw1 (by linarith)
  obtain ⟨hm2, hl2⟩ := ht2 hcb
  obtain ⟨hm1, hl1⟩ := ht1 hba
  refine ⟨le_trans hm2 hm1, fun hme => ?_⟩
  have hmcb : c.matchCount = b.matchCount := by omega
  have hmba : b.matchCount = a.matchCount := by omega
  exact jsLt_false_trans (hl2 hmcb) (hl1 hmba)

theorem worstGe_trans {a b c : OpponentSummary} (h1 : worstGe a b) (h2 : worstGe b c) :
    worstGe a c := by
  obtain ⟨hw1, ht1⟩ := h1
  obtain ⟨hw2, ht2⟩ := h2
  refine ⟨le_trans hw1 hw2, fun hwe => ?_⟩
  have hab : a.winPct = b.winPct := le_antisymm hw1 (by linarith)
  have hbc : b.winPct = c.winPct := le_antisymm hw2 (by linarith)
  obtain ⟨hm2, hl2⟩ := ht2 hbc
  obtain ⟨hm1, hl1⟩ := ht1 hab
  refine ⟨le_trans hm2 hm1, fun hme => ?_⟩
  have hmcb : c.matchCount = b.matchCount := by omega
  have hmba : b.matchCount = a.matchCount := by omega
  exact jsLt_false_trans (hl2 hmcb) (hl1 hmba)

theorem pickBestStep_cases (b c : OpponentSummary) :
    (pickBestStep (some b) c = some c ∧ bestGe c b) ∨
      (pickBestStep (some b) c = some b ∧ bestGe b c) := by
  simp only [pickBestStep]
  by_cases h1 : b.winPct < c.winPct
  · rw [if_pos h1]
    refine Or.inl ⟨rfl, le_of_lt h1, fun he => ?_⟩
    rw [he] at h1
    exact absurd h1 (lt_irrefl _)
  · rw [if_neg h1]
    by_cases h2 : c.winPct = b.winPct ∧ b.matchCount < c.matchCount
    · rw [if_pos h2]
      refine Or.inl ⟨rfl, le_of_eq h2.1.symm, fun _ => ⟨le_of_lt h2.2, fun he => ?_⟩⟩
      rw [he] at h2
      exact absurd h2.2 (lt_irrefl _)
    · rw [if_neg h2]
      by_cases h3 : c.winPct = b.winPct ∧ c.matchCount = b.matchCount ∧
          jsLt c.label b.label = true
      · rw [if_pos h3]
        exact Or.inl ⟨rfl, le_of_eq h3.1.symm,
          fun _ => ⟨le_of_eq h3.2.1.symm, fun _ => jsLt_asymm h3.2.2⟩⟩
      · rw [if_neg h3]
        refine Or.inr ⟨rfl, not_lt.mp h1, fun hwe => ?_⟩
        have hm : ¬b.matchCount < c.matchCount := fun hc => h2 ⟨hwe, hc⟩
        refine ⟨not_lt.mp hm, fun hme => ?_⟩
        rcases Bool.eq_false_or_eq_true (jsLt c.label b.label) with h' | h'
        · exact absurd ⟨hwe, hme, h'⟩ h3
        · exact h'

theorem pickWorstStep_cases (w c : OpponentSummary) :
    (pickWorstStep (some w) c = some c ∧ worstGe c w) ∨
      (pickWorstStep (some w) c = some w ∧ worstGe w c) := by
  simp only [pickWorstStep]
  by_cases h1 : c.winPct < w.winPct
  · rw [if_pos h1]
    refine Or.inl ⟨rfl, le_of_lt h1, fun he => ?_⟩
    rw [he] at h1
    exact absurd h1 (lt_irrefl _)
  · rw [if_neg h1]
    by_cases h2 : c.winPct = w.winPct ∧ w.matchCount < c.matchCount
    · rw [if_pos h2]
      refine Or.inl ⟨rfl, le_of_eq h2.1, fun _ => ⟨le_of_lt h2.2, fun he => ?_⟩⟩
      rw [he] at h2
      exact absurd h2.2 (lt_irrefl _)
    · rw [if_neg h2]
      by_cases h3 : c.winPct = w.winPct ∧ c.matchCount = w.matchCount ∧
          jsLt c.label w.label = true
      · rw [if_pos h3]
        exact Or.inl ⟨rfl, le_of_eq h3.1,
          fun _ => ⟨le_of_eq h3.2.1.symm, fun _ => jsLt_asymm h3.2.2⟩⟩
      · rw [if_neg h3]
        refine Or.inr ⟨rfl, not_lt.mp h1, fun hwe => ?_⟩
        have hm : ¬w.matchCount < c.matchCount := fun hc => h2 ⟨hwe.symm, hc⟩
        refine ⟨not_lt.mp hm, fun hme => ?_⟩
        rcases Bool.eq_false_or_eq_true (jsLt c.label w.label) with h' | h'
        · exact absurd ⟨hwe.symm, hme, h'⟩ h3
        · exact h'

theorem pickBest_foldl_isSome : ∀ (l : List OpponentSummary) (y : OpponentSummary),
    ∃ b, l.foldl pickBestStep (some y) = some b := by
  intro l
  induction l with
  | nil =>
    intro y
    exact ⟨y, rfl⟩
  | cons a t ih =>
    intro y
    rcases pickBestStep_cases y a with ⟨hs, _⟩ | ⟨hs, _⟩ <;> rw [List.foldl_cons, hs]
    · exact ih a
    · exact ih y

theorem pickWorst_foldl_isSome : ∀ (l : List OpponentSummary) (y : OpponentSummary),
    ∃ b, l.foldl pickWorstStep (some y) = some b := by
  intro l
  induction l with
  | nil =>
    intro y
    exact ⟨y, rfl⟩
  | cons a t ih =>
    intro y
    rcases pickWorstStep_cases y a with ⟨hs, _⟩ | ⟨hs, _⟩ <;> rw [List.foldl_cons, hs]
    · exact ih a
    · exact ih y

theorem pickBest_foldl_ge : ∀ (l : List OpponentSummary) (acc : Option OpponentSummary)
    (b : OpponentSummary), l.foldl pickBestStep acc = some b →
    (∀ o ∈ l, bestGe b o) ∧ (∀ x, acc = some x → bestGe b x) ∧
      (acc = some b ∨ b ∈ l) := by
  intro l
  induction l with
  | nil =>
    intro acc b h
    refine ⟨by simp, fun x hx => ?_, Or.inl h⟩
    rw [hx] at h
    cases h
    exact bestGe_refl b
  | cons a t ih =>
    intro acc b h
    rw [List.foldl_cons] at h
    obtain ⟨hall, hacc, hmem⟩ := ih (pickBestStep acc a) b h
    cases acc with
    | none =>
      have hstep : pickBestStep none a = some a := rfl
      have hba : bestGe b a := hacc a hstep
      refine ⟨fun o ho => ?_, fun x hx => ?_, Or.inr ?_⟩
      · rcases List.mem_cons.mp ho with h' | h'
        · rw [h']
          exact hba
        · exact hall o h'
      · cases hx
      · rcases hmem with h' | h'
        · rw [hstep] at h'
          cases h'
          exact List.mem_cons_self _ _
        · exact List.mem_cons_of_mem a h'
    | some x =>
      rcases pickBestStep_cases x a with ⟨hs, hge⟩ | ⟨hs, hge⟩
      · have hba : bestGe b a := hacc a hs
        have hbx : bestGe b x := bestGe_trans hba hge
        refine ⟨fun o ho => ?_, fun x' hx' => ?_, Or.inr ?_⟩
        · rcases List.mem_cons.mp ho with h' | h'
          · rw [h']
            exact hba
          · exact hall o h'
        · cases hx'
          exact hbx
        · rcases hmem with h' | h'
          · rw [hs] at h'
            cases h'
            exact List.mem_cons_self _ _
          · exact List.mem_cons_of_mem a h'
      · have hbx : bestGe b x := hacc x hs
        have hba : bestGe b a := bestGe_trans hbx hge
        refine ⟨fun o ho => ?_, fun x' hx' => ?_, ?_⟩
        · rcases List.mem_cons.mp ho with h' | h'
          · rw [h']
            exact hba
          · exact hall o h'
        · cases hx'
          exact hbx
        · rcases hmem with h' | h'
          · rw [hs] at h'
            exact Or.inl h'
          · exact Or.inr (List.mem_cons_of_mem a h')

theorem pickWorst_foldl_ge : ∀ (l : List OpponentSummary) (acc : Option OpponentSummary)
    (w : OpponentSummary), l.foldl pickWorstStep acc = some w →
    (∀ o ∈ l, worstGe w o) ∧ (∀ x, acc = some x → worstGe w x) ∧
      (acc = some w ∨ w ∈ l) := by
  intro l
  induction l with
  | nil =>
    intro acc w h
    refine ⟨by simp, fun x hx => ?_, Or.inl h⟩
    rw [hx] at h
    cases h
    exact worstGe_refl w
  | cons a t ih =>
    intro acc w h
    rw [List.foldl_cons] at h
    obtain ⟨hall, hacc, hmem⟩ := ih (pickWorstStep acc a) w h
    cases acc with
    | none =>
      have hstep : pickWorstStep none a = some a := rfl
      have hwa : worstGe w a := hacc a hstep
      refine ⟨fun o ho => ?_, fun x hx => ?_, Or.inr ?_⟩
      · rcases List.mem_cons.mp ho with h' | h'
        · rw [h']
          exact hwa
        · exact hall o h'
      · cases hx
      · rcases hmem with h' | h'
        · rw [hstep] at h'
          cases h'
          exact List.mem_cons_self _ _
        · exact List.mem_cons_of_mem a h'
    | some x =>
      rcases pickWorstStep_cases x a with ⟨hs, hge⟩ | ⟨hs, hge⟩
      · have hwa : worstGe w a := hacc a hs
        have hwx : worstGe w x := worstGe_trans hwa hge
        refine ⟨fun o ho => ?_, fun x' hx' => ?_, Or.inr ?_⟩
        · rcases List.mem_cons.mp ho with h' | h'
          · rw [h']
            exact hwa
          · exact hall o h'
        · cases hx'
          exact hwx
        · rcases hmem with h' | h'
          · rw [hs] at h'
            cases h'
            exact List.mem_cons_self _ _
          · exact List.mem_cons_of_mem a h'
      · have hwx : worstGe w x := hacc x hs
        have hwa : worstGe w a := worstGe_trans hwx hge
        refine ⟨fun o ho => ?_, fun x' hx' => ?_, ?_⟩
        · rcases List.mem_cons.mp ho with h' | h'
          · rw [h']
            exact hwa
          · exact hall o h'
        · cases hx'
          exact hwx
        · rcases hmem with h' | h'
          · rw [hs] at h'
            exact Or.inl h'
          · exact Or.inr (List.mem_cons_of_mem a h')

theorem bestOpponentOf_spec (l : List OpponentSummary) (o : OpponentSummary)
    (ho : o ∈ matchupOpponents l) :
    ∃ b, bestOpponentOf l = some b ∧ b ∈ matchupOpponents l ∧ bestGe b o := by
  have hsome : ∃ b, bestOpponentOf l = some b := by
    unfold bestOpponentOf
    cases heq : matchupOpponents l with
    | nil =>
      rw [heq] at ho
      exact absurd ho (by simp)
    | cons a t =>
      rw [List.foldl_cons]
      exact pickBest_foldl_isSome t a
  obtain ⟨b, hb⟩ := hsome
  obtain ⟨hall, _, hmem⟩ := pickBest_foldl_ge (matchupOpponents l) none b hb
  refine ⟨b, hb, ?_, hall o ho⟩
  rcases hmem with h' | h'
  · cases h'
  · exact h'

theorem worstOpponentOf_spec (l : List OpponentSummary) (o : OpponentSummary)
    (ho : o ∈ worstOpponentPool l) :
    ∃ w, worstOpponentOf l = some w ∧ w ∈ worstOpponentPool l ∧ worstGe w o := by
  have hsome : ∃ w, worstOpponentOf l = some w := by
    unfold worstOpponentOf
    cases heq : worstOpponentPool l with
    | nil =>
      rw [heq] at ho
      exact absurd ho (by simp)
    | cons a t =>
      rw [List.foldl_cons]
      exact pickWorst_foldl_isSome t a
  obtain ⟨w, hw⟩ := hsome
  obtain ⟨hall, _, hmem⟩ := pickWorst_foldl_ge (worstOpponentPool l) none w hw
  refine ⟨w, hw, ?_, hall o ho⟩
  rcases hmem with h' | h'
  · cases h'
  · exact h'

/-! ### Rating-state invariants of the three replays -/


theorem ensureState_inv {Q : ℚ → Prop} {cfg : EloConfig}
    {s : String → Option EloState} (hbase : Q cfg.baseline)
    (h : StateRatingInv Q s) (q : String) :
    StateRatingInv Q (ensureState cfg s q) := by
  intro p st hp
  unfold ensureState at hp
  by_cases hsq : (s q).isSome
  · rw [if_pos hsq] at hp
    exact h p st hp
  · rw [if_neg hsq] at hp
    by_cases hpq : p = q
    · rw [hpq, upd_self] at hp
      cases hp
      exact hbase
    · rw [upd_other _ _ _ _ hpq] at hp
      exact h p st hp

theorem applyDelta_inv {Q : ℚ → Prop} {cfg : EloConfig} {delta : ℚ}
    {s : String → Option EloState} (hmax : ∀ r, Q (max cfg.floor r))
    (h : StateRatingInv Q s) (q : String) :
    StateRatingInv Q (applyDelta cfg delta s q) := by
  intro p st hp
  unfold applyDelta at hp
  by_cases hpq : p = q
  · rw [hpq, upd_self] at hp
    cases hp
    exact hmax _
  · rw [upd_other _ _ _ _ hpq] at hp
    exact h p st hp

theorem applyDeltaPost_fst (cfg : EloConfig) (delta : ℚ) :
    ∀ (team : List String) (acc : (String → Option EloState) × (String → Option ℚ)),
      (team.foldl (applyDeltaPost cfg delta) acc).1 =
        team.foldl (applyDelta cfg delta) acc.1 := by
  intro team
  induction team with
  | nil =>
    intro acc
    rfl
  | cons p ps ih =>
    intro acc
    rw [List.foldl_cons, List.foldl_cons]
    exact ih _

theorem applyDeltaTrack_fst (cfg : EloConfig) (playerId mid : String) (delta : ℚ) :
    ∀ (team : List String) (acc : (String → Option EloState) × (String → Option ℚ)),
      (team.foldl (applyDeltaTrack cfg playerId mid delta) acc).1 =
        team.foldl (applyDelta cfg delta) acc.1 := by
  intro team
  induction team with
  | nil =>
    intro acc
    rfl
  | cons p ps ih =>
    intro acc
    rw [List.foldl_cons, List.foldl_cons]
    exact ih _

theorem ensure_foldl_inv {Q : ℚ → Prop} {cfg : EloConfig} (hbase : Q cfg.baseline)
    (team : List String) {s : String → Option EloState} (h : StateRatingInv Q s) :
    StateRatingInv Q (team.foldl (ensureState cfg) s) :=
  foldl_preserve (P := StateRatingInv Q) (f := ensureState cfg)
    (fun s q hs => ensureState_inv hbase hs q) team s h

theorem applyDelta_foldl_inv {Q : ℚ → Prop} {cfg : EloConfig} {delta : ℚ}
    (hmax : ∀ r, Q (max cfg.floor r)) (team : List String)
    {s : String → Option EloState} (h : StateRatingInv Q s) :
    StateRatingInv Q (team.foldl (applyDelta cfg delta) s) :=
  foldl_preserve (P := StateRatingInv Q) (f := applyDelta cfg delta)
    (fun s q hs => applyDelta_inv hmax hs q) team s h

theorem ratingsStep_inv {Q : ℚ → Prop} {cfg : EloConfig} (pow10 : ℚ → ℚ)
    (totals : String → Option MatchGameTotals) (hbase : Q cfg.baseline)
    (hmax : ∀ r, Q (max cfg.floor r)) {s : String → Option EloState}
    (h : StateRatingInv Q s) (mr : MatchRow) :
    StateRatingInv Q (ratingsStep pow10 cfg totals s mr) := by
  rcases htt : totals mr.id with _ | t
  · simp only [ratingsStep, htt]
    exact h
  · simp only [ratingsStep, htt]
    by_cases h1 : t.totalGames ≤ 0
    · rw [if_pos h1]
      exact h
    · rw [if_neg h1]
      by_cases h2 : mr.team_a.getD [] = [] ∨ mr.team_b.getD [] = []
      · rw [if_pos h2]
        exact h
      · rw [if_neg h2]
        exact applyDelta_foldl_inv hmax _
          (applyDelta_foldl_inv hmax _ (ensure_foldl_inv hbase _ h))

theorem statesStep_fst_inv {Q : ℚ → Prop} {cfg : EloConfig} (pow10 : ℚ → ℚ)
    (totals : String → Option MatchGameTotals) (hbase : Q cfg.baseline)
    (hmax : ∀ r, Q (max cfg.floor r))
    {acc : (String → Option EloState) × List EloMatchState}
    (h : StateRatingInv Q acc.1) (mr : MatchRow) :
    StateRatingInv Q (statesStep pow10 cfg totals acc mr).1 := by
  rcases htt : totals mr.id with _ | t
  · simp only [statesStep, htt]
    exact h
  · simp only [statesStep, htt]
    by_cases h1 : t.totalGames ≤ 0
    · rw [if_pos h1]
      exact h
    · rw [if_neg h1]
      by_cases h2 : mr.team_a.getD [] = [] ∨ mr.team_b.getD [] = []
      · rw [if_pos h2]
        exact h
      · rw [if_neg h2]
        simp only [applyDeltaPost_fst]
        exact applyDelta_foldl_inv hmax _
          (applyDelta_foldl_inv hmax _ (ensure_foldl_inv hbase _ h))

theorem deltasStep_fst_inv {Q : ℚ → Prop} {cfg : EloConfig} (pow10 : ℚ → ℚ)
    (totals : String → Option MatchGameTotals) (playerId : String)
    (hbase : Q cfg.baseline) (hmax : ∀ r, Q (max cfg.floor r))
    {acc : (String → Option EloState) × (String → Option ℚ)}
    (h : StateRatingInv Q acc.1) (mr : MatchRow) :
    StateRatingInv Q (deltasStep pow10 cfg totals playerId acc mr).1 := by
  rcases htt : totals mr.id with _ | t
  · simp only [deltasStep, htt]
    exact h
  · simp only [deltasStep, htt]
    by_cases h1 : t.totalGames ≤ 0
    · rw [if_pos h1]
      exact h
    · rw [if_neg h1]
      by_cases h2 : mr.team_a.getD [] = [] ∨ mr.team_b.getD [] = []
      · rw [if_pos h2]
        exact h
      · rw [if_neg h2]
        simp only [applyDeltaTrack_fst]
        exact applyDelta_foldl_inv hmax _
          (applyDelta_foldl_inv hmax _ (ensure_foldl_inv hbase _ h))

theorem seedStates_inv {Q : ℚ → Prop} {cfg : EloConfig} (hbase : Q cfg.baseline)
    (seed : List String) : StateRatingInv Q (seedStates cfg seed) := by
  unfold seedStates
  apply ensure_foldl_inv hbase
  intro p st hp
  exact absurd hp (by simp)

theorem eloStatesAfter_inv {Q : ℚ → Prop} {cfg : EloConfig} (pow10 : ℚ → ℚ)
    (totals : String → Option MatchGameTotals) (seed : List String)
    (hbase : Q cfg.baseline) (hmax : ∀ r, Q (max cfg.floor r)) (l : List MatchRow) :
    StateRatingInv Q (eloStatesAfter pow10 cfg totals seed l) := by
  unfold eloStatesAfter
  exact foldl_preserve (P := StateRatingInv Q) (f := ratingsStep pow10 cfg totals)
    (fun s mr hs => ratingsStep_inv pow10 totals hbase hmax hs mr)
    l _ (seedStates_inv hbase seed)

theorem eloTraceAfter_fst_inv {Q : ℚ → Prop} {cfg : EloConfig} (pow10 : ℚ → ℚ)
    (totals : String → Option MatchGameTotals) (seed : List String)
    (hbase : Q cfg.baseline) (hmax : ∀ r, Q (max cfg.floor r)) (l : List MatchRow) :
    StateRatingInv Q (eloTraceAfter pow10 cfg totals seed l).1 := by
  unfold eloTraceAfter
  exact foldl_preserve
    (P := fun acc : (String → Option EloState) × List EloMatchState =>
      StateRatingInv Q acc.1)
    (f := statesStep pow10 cfg totals)
    (fun acc mr hs => statesStep_fst_inv pow10 totals hbase hmax hs mr)
    l _ (seedStates_inv hbase seed)

theorem eloDeltasAfter_fst_inv {Q : ℚ → Prop} {cfg : EloConfig} (pow10 : ℚ → ℚ)
    (totals : String → Option MatchGameTotals) (playerId : String)
    (seed : List String) (hbase : Q cfg.baseline)
    (hmax : ∀ r, Q (max cfg.floor r)) (l : List MatchRow) :
    StateRatingInv Q (eloDeltasAfter pow10 cfg totals playerId seed l).1 := by
  unfold eloDeltasAfter
  apply foldl_preserve
    (P := fun acc : (String → Option EloState) × (String → Option ℚ) =>
      StateRatingInv Q acc.1)
    (f := deltasStep pow10 cfg totals playerId)
    (fun acc mr hs => deltasStep_fst_inv pow10 totals playerId hbase hmax hs mr)
  by_cases hp : playerId = ""
  · rw [if_pos hp]
    exact seedStates_inv hbase seed
  · rw [if_neg hp]
    exact ensureState_inv hbase (seedStates_inv hbase seed) playerId

/-! ### The per-match update never reads matches-played counts -/



theorem foldl_rel {α σ : Type _} (R : σ → σ → Prop) {f : σ → α → σ}
    (hstep : ∀ s₁ s₂ a, R s₁ s₂ → R (f s₁ a) (f s₂ a)) :
    ∀ (l : List α) (s₁ s₂ : σ), R s₁ s₂ → R (l.foldl f s₁) (l.foldl f s₂) := by
  intro l
  induction l with
  | nil =>
    intro s₁ s₂ h
    exact h
  | cons a t ih =>
    intro s₁ s₂ h
    exact ih _ _ (hstep s₁ s₂ a h)

theorem getState_rating_congr {cfg : EloConfig} {s₁ s₂ : String → Option EloState}
    {p : String} (h : ratingsAgree (s₁ p) (s₂ p)) :
    (getState cfg s₁ p).rating = (getState cfg s₂ p).rating := by
  unfold getState
  cases h1 : s₁ p <;> cases h2 : s₂ p <;> rw [h1, h2] at h <;>
    simp only [ratingsAgree] at h <;> simp [h]

theorem ensureState_agree {cfg : EloConfig} {s₁ s₂ : String → Option EloState}
    (h : StatesAgree s₁ s₂) (q : String) :
    StatesAgree (ensureState cfg s₁ q) (ensureState cfg s₂ q) := by
  intro p
  unfold ensureState
  have hq := h q
  cases h1 : s₁ q <;> cases h2 : s₂ q <;> rw [h1, h2] at hq <;>
    simp only [ratingsAgree] at hq
  · simp only [Option.isSome_none, Bool.false_eq_true, if_false]
    by_cases hpq : p = q
    · rw [hpq, upd_self, upd_self]
      simp [ratingsAgree]
    · rw [upd_other _ _ _ _ hpq, upd_other _ _ _ _ hpq]
      exact h p
  · simp only [Option.isSome_some, if_true]
    exact h p

theorem applyDelta_agree {cfg : EloConfig} {delta : ℚ}
    {s₁ s₂ : String → Option EloState} (h : StatesAgree s₁ s₂) (q : String) :
    StatesAgree (applyDelta cfg delta s₁ q) (applyDelta cfg delta s₂ q) := by
  intro p
  unfold applyDelta
  by_cases hpq : p = q
  · rw [hpq, upd_self, upd_self]
    simp only [ratingsAgree]
    rw [getState_rating_congr (h q)]
  · rw [upd_other _ _ _ _ hpq, upd_other _ _ _ _ hpq]
    exact h p

theorem teamMeanRating_congr {cfg : EloConfig} {s₁ s₂ : String → Option EloState}
    (h : StatesAgree s₁ s₂) (team : List String) :
    teamMeanRating cfg s₁ team = teamMeanRating cfg s₂ team := by
  unfold teamMeanRating
  have hm : (team.map fun p => (getState cfg s₁ p).rating) =
      team.map fun p => (getState cfg s₂ p).rating :=
    List.map_congr_left fun p _ => getState_rating_congr (h p)
  rw [hm]

theorem matchDeltas_congr (pow10 : ℚ → ℚ) {cfg : EloConfig}
    {s₁ s₂ : String → Option EloState} (h : StatesAgree s₁ s₂) (mr : MatchRow)
    (t : MatchGameTotals) :
    matchDeltas pow10 cfg s₁ mr t = matchDeltas pow10 cfg s₂ mr t := by
  unfold matchDeltas
  simp only [teamMeanRating_congr h]

/-- The per-match update of calculateEloRatings is driven only by the present
ratings: state maps that agree on presence and ratings (but have arbitrary
matches-played counts) are sent to state maps that again agree.  In other
words, no K-factor or delta used anywhere in a replay can depend on any
player's matches-played count. -/
theorem ratingsStep_agree (pow10 : ℚ → ℚ) (cfg : EloConfig)
    (totals : String → Option MatchGameTotals) (mr : MatchRow)
    {s₁ s₂ : String → Option EloState} (h : StatesAgree s₁ s₂) :
    StatesAgree (ratingsStep pow10 cfg totals s₁ mr)
      (ratingsStep pow10 cfg totals s₂ mr) := by
  rcases htt : totals mr.id with _ | t
  · simp only [ratingsStep, htt]
    exact h
  · simp only [ratingsStep, htt]
    by_cases h1 : t.totalGames ≤ 0
    · rw [if_pos h1, if_pos h1]
      exact h
    · rw [if_neg h1, if_neg h1]
      by_cases h2 : mr.team_a.getD [] = [] ∨ mr.team_b.getD [] = []
      · rw [if_pos h2, if_pos h2]
        exact h
      · rw [if_neg h2, if_neg h2]
        have hens : StatesAgree
            ((mr.team_a.getD [] ++ mr.team_b.getD []).foldl (ensureState cfg) s₁)
            ((mr.team_a.getD [] ++ mr.team_b.getD []).foldl (ensureState cfg) s₂) :=
          foldl_rel StatesAgree (fun a b q hab => ensureState_agree hab q) _ _ _ h
        rw [matchDeltas_congr pow10 hens]
        exact foldl_rel StatesAgree (fun a b q hab => applyDelta_agree hab q) _ _ _
          (foldl_rel StatesAgree (fun a b q hab => applyDelta_agree hab q) _ _ _ hens)

/-! ### Concrete evaluations -/

theorem exTotalsWon_eval :
    buildMatchGameTotals [exMatch] exGamesWon "m1" = some ⟨2, 0, 22, 12, 2⟩ := by
  simp only [buildMatchGameTotals, exMatch, exGamesWon, List.map_cons, List.map_nil,
    List.foldl_cons, List.foldl_nil, gameStep]
  norm_num [upd, addGame, zeroTotals]

theorem exTotalsSplit_eval :
    buildMatchGameTotals [exMatch] exGamesSplit "m1" = some ⟨1, 1, 16, 16, 2⟩ := by
  simp only [buildMatchGameTotals, exMatch, exGamesSplit, List.map_cons, List.map_nil,
    List.foldl_cons, List.foldl_nil, gameStep]
  norm_num [upd, addGame, zeroTotals]

theorem sortMatches_single (mr : MatchRow) : sortMatches [mr] = [mr] := by
  simp [sortMatches, List.insertionSort]

theorem scenario_states_eval (pow10 : ℚ → ℚ) (f : ℚ) (hpow : pow10 0 = 1)
    (hf : f ≤ 984) :
    eloStatesAfter pow10 (scenarioCfg f) (buildMatchGameTotals [exMatch] exGamesWon)
        [] (sortMatches [exMatch]) "A" = some ⟨1016, 1⟩ ∧
    eloStatesAfter pow10 (scenarioCfg f) (buildMatchGameTotals [exMatch] exGamesWon)
        [] (sortMatches [exMatch]) "B" = some ⟨984, 1⟩ := by
  have hAB : ¬ ("A" : String) = "B" := by decide
  have hBA : ¬ ("B" : String) = "A" := by decide
  rw [sortMatches_single]
  unfold eloStatesAfter
  rw [List.foldl_cons, List.foldl_nil]
  have hseed : seedStates (scenarioCfg f) [] = fun _ => none := rfl
  rw [hseed]
  have hid : exMatch.id = "m1" := rfl
  simp only [ratingsStep, hid, exTotalsWon_eval]
  rw [if_neg (by norm_num)]
  rw [if_neg (by simp [exMatch])]
  have hens : (exMatch.team_a.getD [] ++ exMatch.team_b.getD []).foldl
      (ensureState (scenarioCfg f)) (fun _ => none) =
      upd (upd (fun _ => none) "A" ⟨1000, 0⟩) "B" ⟨1000, 0⟩ := by
    simp only [exMatch, Option.getD_some, List.cons_append, List.nil_append,
      List.foldl_cons, List.foldl_nil, ensureState, scenarioCfg]
    norm_num [upd]
    exact fun h => absurd h (by decide)
  rw [hens]
  have hdel : matchDeltas pow10 (scenarioCfg f)
      (upd (upd (fun _ => none) "A" ⟨1000, 0⟩) "B" ⟨1000, 0⟩) exMatch
      ⟨2, 0, 22, 12, 2⟩ = (16, -16) := by
    unfold matchDeltas
    simp only [exMatch, Option.getD_some, teamMeanRating, getState, List.map_cons,
      List.map_nil, List.sum_cons, List.sum_nil, List.length_cons, List.length_nil]
    norm_num [upd, expectedScore, resolveScale, scenarioCfg, teamKFor, resolveK,
      resolveFormatWeight, hpow]
  rw [hdel]
  constructor
  · simp only [exMatch, Option.getD_some, List.foldl_cons, List.foldl_nil, applyDelta,
      getState, scenarioCfg]
    norm_num [upd, hAB, hBA]
    linarith
  · simp only [exMatch, Option.getD_some, List.foldl_cons, List.foldl_nil, applyDelta,
      getState, scenarioCfg]
    norm_num [upd, hAB, hBA]
    linarith

theorem defaultCfg_fields : defaultEloConfig.baseline = 1000 ∧ defaultEloConfig.floor = 100 ∧
    defaultEloConfig.scale = 400 ∧ defaultEloConfig.kFactor = 24 ∧
    defaultEloConfig.formatWeights MatchFormat.bo3 = 1 := by
  refine ⟨rfl, rfl, rfl, rfl, rfl⟩

theorem split_states_eval (pow10 : ℚ → ℚ) (hpow : pow10 0 = 1) :
    eloStatesAfter pow10 defaultEloConfig (buildMatchGameTotals [exMatch] exGamesSplit)
        [] (sortMatches [exMatch]) "A" = some ⟨1000, 1⟩ ∧
    eloStatesAfter pow10 defaultEloConfig (buildMatchGameTotals [exMatch] exGamesSplit)
        [] (sortMatches [exMatch]) "B" = some ⟨1000, 1⟩ := by
  have hAB : ¬ ("A" : String) = "B" := by decide
  have hBA : ¬ ("B" : String) = "A" := by decide
  rw [sortMatches_single]
  unfold eloStatesAfter
  rw [List.foldl_cons, List.foldl_nil]
  have hseed : seedStates defaultEloConfig [] = fun _ => none := rfl
  rw [hseed]
  have hid : exMatch.id = "m1" := rfl
  simp only [ratingsStep, hid, exTotalsSplit_eval]
  rw [if_neg (by norm_num)]
  rw [if_neg (by simp [exMatch])]
  have hens : (exMatch.team_a.getD [] ++ exMatch.team_b.getD []).foldl
      (ensureState defaultEloConfig) (fun _ => none) =
      upd (upd (fun _ => none) "A" ⟨1000, 0⟩) "B" ⟨1000, 0⟩ := by
    simp only [exMatch, Option.getD_some, List.cons_append, List.nil_append,
      List.foldl_cons, List.foldl_nil, ensureState, defaultEloConfig, buildEloConfig,
      readEnvNumber]
    norm_num [upd]
    exact fun h => absurd h (by decide)
  rw [hens]
  have hdel : matchDeltas pow10 defaultEloConfig
      (upd (upd (fun _ => none) "A" ⟨1000, 0⟩) "B" ⟨1000, 0⟩) exMatch
      ⟨1, 1, 16, 16, 2⟩ = (0, 0) := by
    unfold matchDeltas
    simp only [exMatch, Option.getD_some, teamMeanRating, getState, List.map_cons,
      List.map_nil, List.sum_cons, List.sum_nil, List.length_cons, List.length_nil]
    norm_num [upd, expectedScore, resolveScale, defaultEloConfig, buildEloConfig,
      readEnvNumber, teamKFor, resolveK, resolveFormatWeight, hpow]
  rw [hdel]
  constructor
  · simp only [exMatch, Option.getD_some, List.foldl_cons, List.foldl_nil, applyDelta,
      getState, defaultEloConfig, buildEloConfig, readEnvNumber]
    norm_num [upd, hAB, hBA]
  · simp only [exMatch, Option.getD_some, List.foldl_cons, List.foldl_nil, applyDelta,
      getState, defaultEloConfig, buildEloConfig, readEnvNumber]
    norm_num [upd, hAB, hBA]

theorem split_trace_length (pow10 : ℚ → ℚ) :
    (calculateEloMatchStates pow10 defaultEloConfig [exMatch]
      (buildMatchGameTotals [exMatch] exGamesSplit) []).length = 1 := by
  unfold calculateEloMatchStates eloTraceAfter
  rw [sortMatches_single, List.foldl_cons, List.foldl_nil]
  have hid : exMatch.id = "m1" := rfl
  simp only [statesStep, hid, exTotalsSplit_eval]
  rw [if_neg (by norm_num)]
  rw [if_neg (by simp [exMatch])]
  simp

theorem inconsistent_states_eval (pow10 : ℚ → ℚ) (hpow : pow10 0 = 1) :
    eloStatesAfter pow10 (buildEloConfig inconsistentEnv)
        (buildMatchGameTotals [exMatch] exGamesWon) [] (sortMatches [exMatch]) "A" =
      some ⟨2000, 1⟩ ∧
    eloStatesAfter pow10 (buildEloConfig inconsistentEnv)
        (buildMatchGameTotals [exMatch] exGamesWon) [] (sortMatches [exMatch]) "B" =
      some ⟨2000, 1⟩ := by
  have hAB : ¬ ("A" : String) = "B" := by decide
  have hBA : ¬ ("B" : String) = "A" := by decide
  rw [sortMatches_single]
  unfold eloStatesAfter
  rw [List.foldl_cons, List.foldl_nil]
  have hseed : seedStates (buildEloConfig inconsistentEnv) [] = fun _ => none := rfl
  rw [hseed]
  have hid : exMatch.id = "m1" := rfl
  simp only [ratingsStep, hid, exTotalsWon_eval]
  rw [if_neg (by norm_num)]
  rw [if_neg (by simp [exMatch])]
  have hens : (exMatch.team_a.getD [] ++ exMatch.team_b.getD []).foldl
      (ensureState (buildEloConfig inconsistentEnv)) (fun _ => none) =
      upd (upd (fun _ => none) "A" ⟨1000, 0⟩) "B" ⟨1000, 0⟩ := by
    simp only [exMatch, Option.getD_some, List.cons_append, List.nil_append,
      List.foldl_cons, List.foldl_nil, ensureState, inconsistentEnv, buildEloConfig,
      readEnvNumber]
    norm_num [upd]
    exact fun h => absurd h (by decide)
  rw [hens]
  have hdel : matchDeltas pow10 (buildEloConfig inconsistentEnv)
      (upd (upd (fun _ => none) "A" ⟨1000, 0⟩) "B" ⟨1000, 0⟩) exMatch
      ⟨2, 0, 22, 12, 2⟩ = (12, -12) := by
    unfold matchDeltas
    simp only [exMatch, Option.getD_some, teamMeanRating, getState, List.map_cons,
      List.map_nil, List.sum_cons, List.sum_nil, List.length_cons, List.length_nil]
    norm_num [upd, expectedScore, resolveScale, inconsistentEnv, buildEloConfig,
      readEnvNumber, teamKFor, resolveK, resolveFormatWeight, hpow]
    decide
  rw [hdel]
  constructor
  · simp only [exMatch, Option.getD_some, List.foldl_cons, List.foldl_nil, applyDelta,
      getState, inconsistentEnv, buildEloConfig, readEnvNumber]
    norm_num [upd, hAB, hBA]
  · simp only [exMatch, Option.getD_some, List.foldl_cons, List.foldl_nil, applyDelta,
      getState, inconsistentEnv, buildEloConfig, readEnvNumber]
    norm_num [upd, hAB, hBA]

theorem resolveFormatWeight_pos (cfg : EloConfig) (fmt : MatchFormat) :
    0 < resolveFormatWeight cfg fmt := by
  simp only [resolveFormatWeight]
  split_ifs with h
  · exact h
  · norm_num

theorem gameStep_foldl_isSome_mono (ids : List String) (mid : String) :
    ∀ (gs : List GameRow) (tm : String → Option MatchGameTotals),
      (tm mid).isSome → ((gs.foldl (gameStep ids) tm) mid).isSome := by
  intro gs
  apply foldl_preserve (P := fun tm : String → Option MatchGameTotals => (tm mid).isSome)
    (f := gameStep ids)
  intro tm g htm
  unfold gameStep
  by_cases hmem : g.match_id ∈ ids
  · rw [if_pos hmem]
    by_cases hq : mid = g.match_id
    · rw [hq, upd_self]
      rfl
    · rw [upd_other _ _ _ _ hq]
      exact htm
  · rw [if_neg hmem]
    exact htm

theorem addGame_tied_fields (t : MatchGameTotals) (g : GameRow)
    (htie : g.side_a_score = g.side_b_score) :
    (addGame t g).sideAWins = t.sideAWins ∧ (addGame t g).sideBWins = t.sideBWins ∧
    (addGame t g).totalGames = t.totalGames ∧
    (addGame t g).sideAPoints = t.sideAPoints + g.side_a_score ∧
    (addGame t g).sideBPoints = t.sideBPoints + g.side_b_score := by
  rw [addGame_sideAWins, addGame_sideBWins, addGame_totalGames, addGame_sideAPoints,
    addGame_sideBPoints, htie]
  simp

theorem tied_fold_eval (ids : List String) (mid : String) (hmem : mid ∈ ids) :
    ∀ (games : List GameRow) (tm : String → Option MatchGameTotals),
      (∀ g ∈ games, g.match_id = mid ∧ g.side_a_score = g.side_b_score) →
      (games ≠ [] → ∃ t, (games.foldl (gameStep ids) tm) mid = some t) ∧
      (((games.foldl (gameStep ids) tm) mid).getD zeroTotals).totalGames =
        ((tm mid).getD zeroTotals).totalGames ∧
      (((games.foldl (gameStep ids) tm) mid).getD zeroTotals).sideAWins =
        ((tm mid).getD zeroTotals).sideAWins ∧
      (((games.foldl (gameStep ids) tm) mid).getD zeroTotals).sideBWins =
        ((tm mid).getD zeroTotals).sideBWins ∧
      (((games.foldl (gameStep ids) tm) mid).getD zeroTotals).sideAPoints =
        ((tm mid).getD zeroTotals).sideAPoints + (games.map GameRow.side_a_score).sum ∧
      (((games.foldl (gameStep ids) tm) mid).getD zeroTotals).sideBPoints =
        ((tm mid).getD zeroTotals).sideBPoints + (games.map GameRow.side_b_score).sum := by
  intro games
  induction games with
  | nil =>
    intro tm _
    refine ⟨fun h => absurd rfl h, rfl, rfl, rfl, by simp, by simp⟩
  | cons g gs ih =>
    intro tm hall
    have hg := hall g (List.mem_cons_self g gs)
    have hstep : gameStep ids tm g =
        upd tm mid (addGame ((tm mid).getD zeroTotals) g) := by
      unfold gameStep
      rw [hg.1, if_pos hmem]
    have hlook : (upd tm mid (addGame ((tm mid).getD zeroTotals) g)) mid =
        some (addGame ((tm mid).getD zeroTotals) g) := upd_self _ _ _
    obtain ⟨hsome, hTG, hAW, hBW, hAP, hBP⟩ :=
      ih (upd tm mid (addGame ((tm mid).getD zeroTotals) g))
        (fun x hx => hall x (List.mem_cons_of_mem g hx))
    have hfields := addGame_tied_fields ((tm mid).getD zeroTotals) g hg.2
    rw [List.foldl_cons, hstep]
    refine ⟨fun _ => ?_, ?_, ?_, ?_, ?_, ?_⟩
    · have hpres : ((gs.foldl (gameStep ids)
          (upd tm mid (addGame ((tm mid).getD zeroTotals) g))) mid).isSome :=
        gameStep_foldl_isSome_mono ids mid gs _ (by rw [hlook]; rfl)
      obtain ⟨t, ht⟩ := Option.isSome_iff_exists.mp hpres
      exact ⟨t, ht⟩
    · rw [hTG, hlook]
      simp only [Option.getD_some]
      exact hfields.2.2.1
    · rw [hAW, hlook]
      simp only [Option.getD_some]
      exact hfields.1
    · rw [hBW, hlook]
      simp only [Option.getD_some]
      exact hfields.2.1
    · rw [hAP, hlook]
      simp only [Option.getD_some, List.map_cons, List.sum_cons]
      rw [hfields.2.2.2.1]
      ring
    · rw [hBP, hlook]
      simp only [Option.getD_some, List.map_cons, List.sum_cons]
      rw [hfields.2.2.2.2]
      ring

/-! ### The claims -/

/-- Claim C1, as stated, is false on the code.  For the bo3 match with games
11-5 and 5-11 the totals are totalGames = 2 with one game win per side — that
part holds — but the match is NOT excluded from the rating computation: with
the default configuration the trace produced by calculateEloMatchStates
contains an entry for it (length 1, not 0), and player A's replay state
afterwards is ⟨1000, 1⟩ — the matches-played counter changed from 0 to 1,
contradicting "no player's rating or matches-played counter changes when it
is replayed". -/
theorem claim_C1_counterexample :
    buildMatchGameTotals [exMatch] exGamesSplit "m1" = some ⟨1, 1, 16, 16, 2⟩ ∧
    (calculateEloMatchStates (fun _ => 1) defaultEloConfig [exMatch]
      (buildMatchGameTotals [exMatch] exGamesSplit) []).length = 1 ∧
    eloStatesAfter (fun _ => 1) defaultEloConfig
      (buildMatchGameTotals [exMatch] exGamesSplit) [] (sortMatches [exMatch]) "A" =
      some ⟨1000, 1⟩ :=
  ⟨exTotalsSplit_eval, split_trace_length (fun _ => 1),
    (split_states_eval (fun _ => 1) rfl).1⟩

/-- Claim C1, amended.  For a bo3 match whose two games are 11-5 and 5-11,
the totals are totalGames = 2 with one game win per side, and each side's
actual score is 1/2; the match is treated as DECIDED (totalGames > 0), so
the Elo replay processes it rather than excluding it: the per-match trace
gains one entry for it and each participant's matches-played counter
increments from 0 to 1 (the rating itself is unchanged here because the
delta k·(1/2 − 1/2) is zero for players with equal ratings).  Only matches
with zero total games are excluded. -/
theorem claim_C1_amended (pow10 : ℚ → ℚ) (hpow : pow10 0 = 1) :
    (∃ t, buildMatchGameTotals [exMatch] exGamesSplit "m1" = some t ∧
      t.totalGames = 2 ∧ t.sideAWins = 1 ∧ t.sideBWins = 1 ∧
      t.sideAWins / t.totalGames = 1 / 2 ∧ t.sideBWins / t.totalGames = 1 / 2) ∧
    (calculateEloMatchStates pow10 defaultEloConfig [exMatch]
      (buildMatchGameTotals [exMatch] exGamesSplit) []).length = 1 ∧
    eloStatesAfter pow10 defaultEloConfig
      (buildMatchGameTotals [exMatch] exGamesSplit) [] (sortMatches [exMatch]) "A" =
      some ⟨1000, 1⟩ ∧
    eloStatesAfter pow10 defaultEloConfig
      (buildMatchGameTotals [exMatch] exGamesSplit) [] (sortMatches [exMatch]) "B" =
      some ⟨1000, 1⟩ := by
  refine ⟨⟨⟨1, 1, 16, 16, 2⟩, exTotalsSplit_eval, by norm_num, by norm_num, by norm_num,
    by norm_num, by norm_num⟩, split_trace_length pow10,
    (split_states_eval pow10 hpow).1, (split_states_eval pow10 hpow).2⟩

/-- Witness for claim C1's amended theorem at pow10 = const 1. -/
theorem claim_C1_witness :
    ((fun _ : ℚ => (1 : ℚ)) 0 = 1) ∧
    (calculateEloMatchStates (fun _ => 1) defaultEloConfig [exMatch]
      (buildMatchGameTotals [exMatch] exGamesSplit) []).length = 1 :=
  ⟨rfl, (claim_C1_amended (fun _ => 1) rfl).2.1⟩

/-- Claim C2, as stated, is false on the code.  The K applied to a side of a
match — teamKFor, the expression computed on lines 139-143 of elo.ts — is a
function of the configuration and the match's format and type only.  A
half-life decay policy makes the per-player K a strictly decreasing function
of the matches-played count (scaled by format weight); no configuration of
the engine realises any such policy. -/
theorem claim_C2_counterexample :
    ¬ ∃ (cfg : EloConfig) (kOf : ℕ → ℚ), StrictAnti kOf ∧
      ∀ (mr : MatchRow) (n : ℕ),
        teamKFor cfg mr = kOf n * resolveFormatWeight cfg mr.match_format := by
  rintro ⟨cfg, kOf, hanti, h⟩
  have h0 := h exMatch 0
  have h1 := h exMatch 1
  have hw := resolveFormatWeight_pos cfg exMatch.match_format
  have heq : kOf 0 = kOf 1 :=
    mul_right_cancel₀ (ne_of_gt hw) (h0.symm.trans h1)
  have hlt : kOf 1 < kOf 0 := hanti (by norm_num)
  rw [heq] at hlt
  exact lt_irrefl _ hlt

/-- Claim C2, amended.  Only the fixed-K policy exists: the per-match K is
resolveK × format weight × doubles multiplier, depending only on the
configuration and the match's format and type, never on any player's
matches-played count.  Formally: the per-match update of calculateEloRatings
sends state maps that agree on presence and ratings — but carry arbitrary
matches-played counts — to state maps that again so agree, so matches-played
counts can never influence any K, delta, or rating. -/
theorem claim_C2_amended (pow10 : ℚ → ℚ) (cfg : EloConfig)
    (totals : String → Option MatchGameTotals) (mr : MatchRow)
    (s₁ s₂ : String → Option EloState) (h : StatesAgree s₁ s₂) :
    StatesAgree (ratingsStep pow10 cfg totals s₁ mr)
      (ratingsStep pow10 cfg totals s₂ mr) :=
  ratingsStep_agree pow10 cfg totals mr h

/-- Witness for claim C2's amended theorem: two maps giving player A the same
rating 1000 but matches-played counts 0 and 5. -/
theorem claim_C2_witness :
    StatesAgree (upd (fun _ => none) "A" ⟨1000, 0⟩) (upd (fun _ => none) "A" ⟨1000, 5⟩) ∧
    StatesAgree
      (ratingsStep (fun _ => 1) defaultEloConfig
        (buildMatchGameTotals [exMatch] exGamesWon)
        (upd (fun _ => none) "A" ⟨1000, 0⟩) exMatch)
      (ratingsStep (fun _ => 1) defaultEloConfig
        (buildMatchGameTotals [exMatch] exGamesWon)
        (upd (fun _ => none) "A" ⟨1000, 5⟩) exMatch) := by
  have hag : StatesAgree (upd (fun _ => none) "A" ⟨1000, 0⟩)
      (upd (fun _ => none) "A" ⟨1000, 5⟩) := by
    intro p
    by_cases hp : p = "A"
    · rw [hp, upd_self, upd_self]
      simp [ratingsAgree]
    · rw [upd_other _ _ _ _ hp, upd_other _ _ _ _ hp]
      simp [ratingsAgree]
  exact ⟨hag, claim_C2_amended (fun _ => 1) defaultEloConfig
    (buildMatchGameTotals [exMatch] exGamesWon) exMatch _ _ hag⟩

/-- Claim C3, as stated, is false on the code.  There is no configuration-time
consistency check at all: the configuration construction of eloConfig.ts is a
total function, so an internally inconsistent configuration — a floor of 2000
above the baseline of 1000 — is produced without any rejection, and a replay
under it completes normally, clamping the loser (and even the winner) to the
floor.  Moreover the only configuration guards that exist — the non-positive
scale/K fallbacks of resolveScale/resolveK — run inside the replay on every
call, not at startup. -/
theorem claim_C3_counterexample :
    (buildEloConfig inconsistentEnv).floor = 2000 ∧
    (buildEloConfig inconsistentEnv).baseline = 1000 ∧
    (buildEloConfig inconsistentEnv).baseline < (buildEloConfig inconsistentEnv).floor ∧
    calculateEloRatings (fun _ => 1) (buildEloConfig inconsistentEnv) [exMatch]
      (buildMatchGameTotals [exMatch] exGamesWon) [] "B" = some 2000 ∧
    resolveScale ⟨1000, 100, -5, 24, 1, fun _ => 1⟩ = 400 := by
  refine ⟨rfl, rfl, by norm_num [buildEloConfig, inconsistentEnv, readEnvNumber], ?_,
    by norm_num [resolveScale]⟩
  unfold calculateEloRatings
  rw [(inconsistent_states_eval (fun _ => 1) rfl).2]
  rfl

/-- Claim C3, amended.  No configuration-time consistency check exists: every
configuration, including one whose floor exceeds the baseline, is accepted
and used by replays.  What actually holds is (a) after any replay prefix
under any environment-derived configuration, each player's rating is either
still the untouched baseline seed or has been clamped to at least the floor;
and (b) the only guards are per-call fallbacks inside the replay: a
non-positive scale resolves to 400 and a non-positive K to 24 on each
invocation. -/
theorem claim_C3_amended :
    (∀ (env : EloEnvSettings) (pow10 : ℚ → ℚ)
      (totals : String → Option MatchGameTotals) (seed : List String)
      (l : List MatchRow) (p : String) (st : EloState),
      eloStatesAfter pow10 (buildEloConfig env) totals seed l p = some st →
        (buildEloConfig env).floor ≤ st.rating ∨
          st.rating = (buildEloConfig env).baseline) ∧
    (∀ cfg : EloConfig, cfg.scale ≤ 0 → resolveScale cfg = 400) ∧
    (∀ cfg : EloConfig, cfg.kFactor ≤ 0 → resolveK cfg = 24) := by
  refine ⟨?_, ?_, ?_⟩
  · intro env pow10 totals seed l p st hst
    exact eloStatesAfter_inv
      (Q := fun r => (buildEloConfig env).floor ≤ r ∨ r = (buildEloConfig env).baseline)
      pow10 totals seed (Or.inr rfl) (fun r => Or.inl (le_max_left _ _)) l p st hst
  · intro cfg h
    unfold resolveScale
    rw [if_neg (not_lt.mpr h)]
  · intro cfg h
    unfold resolveK
    rw [if_neg (not_lt.mpr h)]

/-- Witness for claim C3's amended theorem: the inconsistent configuration's
replay state for player A, plus the per-call fallbacks at concrete
configurations. -/
theorem claim_C3_witness :
    ((buildEloConfig inconsistentEnv).floor ≤ (⟨2000, 1⟩ : EloState).rating ∨
      (⟨2000, 1⟩ : EloState).rating = (buildEloConfig inconsistentEnv).baseline) ∧
    resolveScale ⟨1000, 100, -7, 24, 1, fun _ => 1⟩ = 400 ∧
    resolveK ⟨1000, 100, 400, -2, 1, fun _ => 1⟩ = 24 :=
  ⟨claim_C3_amended.1 inconsistentEnv (fun _ => 1)
      (buildMatchGameTotals [exMatch] exGamesWon) [] (sortMatches [exMatch]) "A"
      ⟨2000, 1⟩ (inconsistent_states_eval (fun _ => 1) rfl).1,
    claim_C3_amended.2.1 _ (by norm_num),
    claim_C3_amended.2.2 _ (by norm_num)⟩

/-- Claim C4, as stated, is false on the code.  The best-opponent reduce of
the statistics engine breaks win-percentage-and-match-count ties by the
opponent's display label, not by identifier: for two eligible opponents tied
on both keys, with Alice carrying identifier "pb" and Bob identifier "pa",
the code picks Alice (smaller label) while an identifier tie-break — the
spec-modelled bestOpponentSpecOrder — picks Bob. -/
theorem claim_C4_counterexample :
    bestOpponentOf [exOppAlice, exOppBob] = some exOppAlice ∧
    bestOpponentSpecOrder [exOppAlice, exOppBob] = some exOppBob ∧
    exOppAlice.id ≠ exOppBob.id ∧
    bestOpponentOf [exOppAlice, exOppBob] ≠
      bestOpponentSpecOrder [exOppAlice, exOppBob] := by
  refine ⟨?_, ?_, by decide, ?_⟩ <;> decide

/-- Claim C4, amended.  The statistics engine selects the best and the worst
opponent by win percentage, ties broken by higher match count and then by
SMALLER DISPLAY LABEL (not identifier), considering only opponents met at
least MIN_MATCHES_FOR_MATCHUP times; the worst opponent is selected from the
eligible opponents excluding the chosen best.  In particular the returned
best opponent has win percentage at least that of every eligible opponent,
and the returned worst has win percentage at most that of every opponent in
its pool. -/
theorem claim_C4_amended (l : List OpponentSummary) :
    (∀ o ∈ matchupOpponents l, ∃ b, bestOpponentOf l = some b ∧
      b ∈ matchupOpponents l ∧ bestGe b o) ∧
    (∀ o ∈ worstOpponentPool l, ∃ w, worstOpponentOf l = some w ∧
      w ∈ worstOpponentPool l ∧ worstGe w o) :=
  ⟨fun o ho => bestOpponentOf_spec l o ho, fun o ho => worstOpponentOf_spec l o ho⟩

/-- Witness for claim C4's amended theorem on the two-opponent list. -/
theorem claim_C4_witness :
    ∃ b, bestOpponentOf [exOppAlice, exOppBob] = some b ∧
      b ∈ matchupOpponents [exOppAlice, exOppBob] ∧ bestGe b exOppBob :=
  (claim_C4_amended [exOppAlice, exOppBob]).1 exOppBob (by decide)

/-- Claim C5, confirmed.  For match lists with pairwise distinct identifiers,
permuting the match list and/or the game list changes neither the final
per-player ratings of calculateEloRatings nor the per-match trace of
calculateEloMatchStates: the canonical order (match date, creation
timestamp, identifier) is recomputed internally, and the totals aggregator
is order-independent. -/
theorem claim_C5_determinism (pow10 : ℚ → ℚ) (cfg : EloConfig) (seed : List String)
    {m₁ m₂ : List MatchRow} {gs₁ gs₂ : List GameRow}
    (hids : (m₁.map MatchRow.id).Nodup) (hm : m₁.Perm m₂) (hg : gs₁.Perm gs₂) :
    calculateEloRatings pow10 cfg m₁ (buildMatchGameTotals m₁ gs₁) seed =
      calculateEloRatings pow10 cfg m₂ (buildMatchGameTotals m₂ gs₂) seed ∧
    calculateEloMatchStates pow10 cfg m₁ (buildMatchGameTotals m₁ gs₁) seed =
      calculateEloMatchStates pow10 cfg m₂ (buildMatchGameTotals m₂ gs₂) seed := by
  have ht := buildMatchGameTotals_congr hm hg
  have hs := sortMatches_congr hm hids
  constructor
  · unfold calculateEloRatings eloStatesAfter
    rw [ht, hs]
  · unfold calculateEloMatchStates eloTraceAfter
    rw [ht, hs]

/-- Witness for claim C5 at a concrete two-match, two-game instance and its
reversals. -/
theorem claim_C5_witness :
    calculateEloRatings (fun _ => 1) defaultEloConfig [exMatch, exMatch2]
        (buildMatchGameTotals [exMatch, exMatch2] exGamesWon) [] =
      calculateEloRatings (fun _ => 1) defaultEloConfig [exMatch2, exMatch]
        (buildMatchGameTotals [exMatch2, exMatch]
          [⟨"m1", 11, 7⟩, ⟨"m1", 11, 5⟩]) [] ∧
    calculateEloMatchStates (fun _ => 1) defaultEloConfig [exMatch, exMatch2]
        (buildMatchGameTotals [exMatch, exMatch2] exGamesWon) [] =
      calculateEloMatchStates (fun _ => 1) defaultEloConfig [exMatch2, exMatch]
        (buildMatchGameTotals [exMatch2, exMatch]
          [⟨"m1", 11, 7⟩, ⟨"m1", 11, 5⟩]) [] := by
  have hm : ([exMatch, exMatch2] : List MatchRow).Perm [exMatch2, exMatch] :=
    List.Perm.swap exMatch2 exMatch []
  have hg : exGamesWon.Perm [⟨"m1", 11, 7⟩, ⟨"m1", 11, 5⟩] :=
    List.Perm.swap (⟨"m1", 11, 7⟩ : GameRow) ⟨"m1", 11, 5⟩ []
  have hids : (([exMatch, exMatch2] : List MatchRow).map MatchRow.id).Nodup := by
    simp [exMatch, exMatch2]
  exact claim_C5_determinism (fun _ => 1) defaultEloConfig [] hids hm hg

/-- Claim C6, confirmed under the (default-satisfied) consistency condition
floor ≤ baseline.  At every point during a replay — after any list of
processed matches, in each of the three replay variants — every present
player state has a rating at least the configured floor, because states are
seeded at the baseline and every update clamps at the floor; and every
rating returned by calculateEloRatings is at least the floor. -/
theorem claim_C6_floor (pow10 : ℚ → ℚ) (cfg : EloConfig)
    (totals : String → Option MatchGameTotals) (seed : List String)
    (playerId : String) (h : cfg.floor ≤ cfg.baseline) :
    (∀ (l : List MatchRow) (p : String) (st : EloState),
      eloStatesAfter pow10 cfg totals seed l p = some st → cfg.floor ≤ st.rating) ∧
    (∀ (l : List MatchRow) (p : String) (st : EloState),
      (eloTraceAfter pow10 cfg totals seed l).1 p = some st → cfg.floor ≤ st.rating) ∧
    (∀ (l : List MatchRow) (p : String) (st : EloState),
      (eloDeltasAfter pow10 cfg totals playerId seed l).1 p = some st →
        cfg.floor ≤ st.rating) ∧
    (∀ (matchRows : List MatchRow) (p : String) (r : ℚ),
      calculateEloRatings pow10 cfg matchRows totals seed p = some r →
        cfg.floor ≤ r) := by
  refine ⟨?_, ?_, ?_, ?_⟩
  · intro l p st hst
    exact eloStatesAfter_inv (Q := fun r => cfg.floor ≤ r) pow10 totals seed h
      (fun r => le_max_left _ _) l p st hst
  · intro l p st hst
    exact eloTraceAfter_fst_inv (Q := fun r => cfg.floor ≤ r) pow10 totals seed h
      (fun r => le_max_left _ _) l p st hst
  · intro l p st hst
    exact eloDeltasAfter_fst_inv (Q := fun r => cfg.floor ≤ r) pow10 totals playerId
      seed h (fun r => le_max_left _ _) l p st hst
  · intro matchRows p r hr
    unfold calculateEloRatings at hr
    obtain ⟨st, hst, hrt⟩ := Option.map_eq_some'.mp hr
    rw [← hrt]
    exact eloStatesAfter_inv (Q := fun x => cfg.floor ≤ x) pow10 totals seed h
      (fun x => le_max_left _ _) (sortMatches matchRows) p st hst

/-- Witness for claim C6 with the default configuration on the concrete 2-0
scenario. -/
theorem claim_C6_witness :
    defaultEloConfig.floor ≤ defaultEloConfig.baseline ∧
    (∀ (p : String) (r : ℚ),
      calculateEloRatings (fun _ => 1) defaultEloConfig [exMatch]
        (buildMatchGameTotals [exMatch] exGamesWon) [] p = some r →
        defaultEloConfig.floor ≤ r) := by
  have h : defaultEloConfig.floor ≤ defaultEloConfig.baseline := by
    norm_num [defaultEloConfig, buildEloConfig, readEnvNumber]
  exact ⟨h, fun p r hr =>
    (claim_C6_floor (fun _ => 1) defaultEloConfig
      (buildMatchGameTotals [exMatch] exGamesWon) [] "" h).2.2.2 [exMatch] p r hr⟩

/-- Claim C7, confirmed.  Every totals entry the aggregator produces has its
two game-win counts summing exactly to its total-games count — the
aggregator increments totalGames exactly when it increments one side's win
count — and therefore for every entry with totalGames > 0 the two actual
scores sideAWins/totalGames and sideBWins/totalGames sum exactly to 1. -/
theorem claim_C7_zero_sum (matchRows : List MatchRow) (games : List GameRow)
    (m : String) (t : MatchGameTotals)
    (h : buildMatchGameTotals matchRows games m = some t) :
    t.sideAWins + t.sideBWins = t.totalGames ∧
    (0 < t.totalGames →
      t.sideAWins / t.totalGames + t.sideBWins / t.totalGames = 1) := by
  have hw := buildMatchGameTotals_winsSum matchRows games m t h
  refine ⟨hw, fun hpos => ?_⟩
  rw [div_add_div_same, hw, div_self (ne_of_gt hpos)]

/-- Witness for claim C7 on the concrete 2-0 totals entry. -/
theorem claim_C7_witness :
    (⟨2, 0, 22, 12, 2⟩ : MatchGameTotals).sideAWins +
        (⟨2, 0, 22, 12, 2⟩ : MatchGameTotals).sideBWins =
      (⟨2, 0, 22, 12, 2⟩ : MatchGameTotals).totalGames ∧
    (0 < (⟨2, 0, 22, 12, 2⟩ : MatchGameTotals).totalGames →
      (⟨2, 0, 22, 12, 2⟩ : MatchGameTotals).sideAWins /
          (⟨2, 0, 22, 12, 2⟩ : MatchGameTotals).totalGames +
        (⟨2, 0, 22, 12, 2⟩ : MatchGameTotals).sideBWins /
          (⟨2, 0, 22, 12, 2⟩ : MatchGameTotals).totalGames = 1) :=
  claim_C7_zero_sum [exMatch] exGamesWon "m1" ⟨2, 0, 22, 12, 2⟩ exTotalsWon_eval

/-- Claim C8, confirmed.  Under baseline 1000, scale 400, fixed K 32, format
weight 1 and any floor at or below 984 (with Math.pow(10, ·) abstracted as
any pow10 with pow10 0 = 1, its value at the only exponent reached here),
replaying the single best-of-3 match decided 2-0 between two previously
unrated players yields expected score 1/2 for each side and final ratings
exactly 1016 for the winner and 984 for the loser. -/
theorem claim_C8_scenario (pow10 : ℚ → ℚ) (f : ℚ) (hpow : pow10 0 = 1)
    (hf : f ≤ 984) :
    expectedScore pow10 (scenarioCfg f) 1000 1000 = 1 / 2 ∧
    calculateEloRatings pow10 (scenarioCfg f) [exMatch]
      (buildMatchGameTotals [exMatch] exGamesWon) [] "A" = some 1016 ∧
    calculateEloRatings pow10 (scenarioCfg f) [exMatch]
      (buildMatchGameTotals [exMatch] exGamesWon) [] "B" = some 984 := by
  refine ⟨?_, ?_, ?_⟩
  · unfold expectedScore
    norm_num [resolveScale, scenarioCfg, hpow]
  · unfold calculateEloRatings
    rw [(scenario_states_eval pow10 f hpow hf).1]
    rfl
  · unfold calculateEloRatings
    rw [(scenario_states_eval pow10 f hpow hf).2]
    rfl

/-- Witness for claim C8 at pow10 = const 1 and floor 100. -/
theorem claim_C8_witness :
    ((fun _ : ℚ => (1 : ℚ)) 0 = 1) ∧ ((100 : ℚ) ≤ 984) ∧
    calculateEloRatings (fun _ => 1) (scenarioCfg 100) [exMatch]
      (buildMatchGameTotals [exMatch] exGamesWon) [] "A" = some 1016 ∧
    calculateEloRatings (fun _ => 1) (scenarioCfg 100) [exMatch]
      (buildMatchGameTotals [exMatch] exGamesWon) [] "B" = some 984 :=
  ⟨rfl, by norm_num, (claim_C8_scenario (fun _ => 1) 100 rfl (by norm_num)).2.1,
    (claim_C8_scenario (fun _ => 1) 100 rfl (by norm_num)).2.2⟩

/-- Claim C9, confirmed.  A game with equal scores adds both scores to the
point totals but increments neither side's game-win count nor the
total-games counter; consequently a match all of whose referenced games are
tied appears in the totals map with an entry whose totalGames (and win
counts) are zero and whose point totals are the full score sums — nonzero
whenever some tied score is positive. -/
theorem claim_C9_tied_games :
    (∀ (t : MatchGameTotals) (g : GameRow), g.side_a_score = g.side_b_score →
      (addGame t g).sideAWins = t.sideAWins ∧ (addGame t g).sideBWins = t.sideBWins ∧
      (addGame t g).totalGames = t.totalGames ∧
      (addGame t g).sideAPoints = t.sideAPoints + g.side_a_score ∧
      (addGame t g).sideBPoints = t.sideBPoints + g.side_b_score) ∧
    (∀ (matchRows : List MatchRow) (games : List GameRow) (mid : String),
      mid ∈ matchRows.map MatchRow.id → games ≠ [] →
      (∀ g ∈ games, g.match_id = mid ∧ g.side_a_score = g.side_b_score) →
      ∃ t, buildMatchGameTotals matchRows games mid = some t ∧
        t.totalGames = 0 ∧ t.sideAWins = 0 ∧ t.sideBWins = 0 ∧
        t.sideAPoints = (games.map GameRow.side_a_score).sum ∧
        t.sideBPoints = (games.map GameRow.side_b_score).sum ∧
        (0 < (games.map GameRow.side_a_score).sum → 0 < t.sideAPoints)) := by
  constructor
  · intro t g htie
    exact addGame_tied_fields t g htie
  · intro matchRows games mid hmem hne hall
    obtain ⟨hsome, hTG, hAW, hBW, hAP, hBP⟩ :=
      tied_fold_eval (matchRows.map MatchRow.id) mid hmem games (fun _ => none) hall
    obtain ⟨t, ht⟩ := hsome hne
    unfold buildMatchGameTotals
    rw [ht] at hTG hAW hBW hAP hBP
    simp only [Option.getD_some] at hTG hAW hBW hAP hBP
    refine ⟨t, ht, by simpa [zeroTotals] using hTG, by simpa [zeroTotals] using hAW,
      by simpa [zeroTotals] using hBW, by simpa [zeroTotals] using hAP,
      by simpa [zeroTotals] using hBP, fun hpos => ?_⟩
    rw [show t.sideAPoints = (games.map GameRow.side_a_score).sum by
      simpa [zeroTotals] using hAP]
    exact hpos

/-- Witness for claim C9 on the all-tied game list 7-7, 10-10. -/
theorem claim_C9_witness :
    ∃ t, buildMatchGameTotals [exMatch] exGamesTied "m1" = some t ∧
      t.totalGames = 0 ∧ t.sideAWins = 0 ∧ t.sideBWins = 0 ∧
      t.sideAPoints = (exGamesTied.map GameRow.side_a_score).sum ∧
      t.sideBPoints = (exGamesTied.map GameRow.side_b_score).sum ∧
      (0 < (exGamesTied.map GameRow.side_a_score).sum → 0 < t.sideAPoints) :=
  claim_C9_tied_games.2 [exMatch] exGamesTied "m1" (by simp [exMatch])
    (by simp [exGamesTied]) (by norm_num [exGamesTied])

/-- Claim C10, confirmed.  At the array-store level — where the spread
[...matches] allocates a fresh array and Array.prototype.sort mutates its
receiver in place — none of the three replay functions changes the
caller-supplied match array: each sorts the fresh copy, so the referenced
array holds the same elements in the same order afterwards, and each
function's result equals the pure function of the original contents. -/
theorem claim_C10_no_mutation (pow10 : ℚ → ℚ) (cfg : EloConfig) (s : ArrStore)
    (totals : String → Option MatchGameTotals) (playerId : String)
    (seed : List String) (r : ℕ) (h : r < s.next) :
    (calculateEloRatingsStore pow10 cfg s r totals seed).2.heap r = s.heap r ∧
    (calculateEloMatchStatesStore pow10 cfg s r totals seed).2.heap r = s.heap r ∧
    (calculateEloDeltasForPlayerStore pow10 cfg s r totals playerId seed).2.heap r =
      s.heap r ∧
    (calculateEloRatingsStore pow10 cfg s r totals seed).1 =
      calculateEloRatings pow10 cfg (s.heap r) totals seed ∧
    (calculateEloMatchStatesStore pow10 cfg s r totals seed).1 =
      calculateEloMatchStates pow10 cfg (s.heap r) totals seed ∧
    (calculateEloDeltasForPlayerStore pow10 cfg s r totals playerId seed).1 =
      calculateEloDeltasForPlayer pow10 cfg (s.heap r) totals playerId seed := by
  have hne : r ≠ s.next := Nat.ne_of_lt h
  refine ⟨?_, ?_, ?_, ?_, ?_, ?_⟩ <;>
    (simp [calculateEloRatingsStore, calculateEloMatchStatesStore,
      calculateEloDeltasForPlayerStore, allocCopy, sortAt, hne,
      calculateEloRatings, calculateEloMatchStates, calculateEloDeltasForPlayer] <;>
      try rfl)

/-- Witness for claim C10 on a one-array store. -/
theorem claim_C10_witness :
    ((0 : ℕ) < (⟨fun _ => [], 1⟩ : ArrStore).next) ∧
    (calculateEloRatingsStore (fun _ => 1) defaultEloConfig ⟨fun _ => [], 1⟩ 0
      (fun _ => none) []).2.heap 0 = (⟨fun _ => [], 1⟩ : ArrStore).heap 0 :=
  ⟨by norm_num,
    (claim_C10_no_mutation (fun _ => 1) defaultEloConfig ⟨fun _ => [], 1⟩
      (fun _ => none) "" [] 0 (by norm_num)).1⟩
